import Mathlib

/-!
Verification development for the regulatory threshold governance and
compliance evaluation engine of the AI-App repository.

Python strings are modelled as lists of Unicode code points (abbrev PyStr),
Python floats and decimals as exact rationals, dates as integers (day
numbers), and the relational store as explicit in-memory lists of records.
Case mapping is modelled on the ASCII range plus the Greek capital mu, the
only non-ASCII letter that the unit alias table makes relevant.
-/

/-- A Python string, as its sequence of Unicode code points. -/
abbrev PyStr := List Nat

/-- Code points of a Lean string literal, used to transcribe the Python
string literals of the source. -/
def strOf (s : String) : PyStr := s.data.map Char.toNat

/-! ## Character-level helpers shared by the normalizers -/

/-- ASCII whitespace, the class stripped and split on by the Python
str.strip and str.split used in the source (model of Python whitespace). -/
def pyWs (n : Nat) : Bool := n = 32 || n = 9 || n = 10 || n = 13 || n = 11 || n = 12

/-- Model of str.lower per character: ASCII A-Z gain 32; the Greek capital
mu (U+039C) lowers to the Greek small mu (U+03BC); everything else is kept. -/
def lowerChar (n : Nat) : Nat :=
  if 65 ≤ n ∧ n ≤ 90 then n + 32
  else if n = 924 then 956
  else n

/-- Model of str.upper per character on the ASCII range: a-z lose 32. -/
def upperChar (n : Nat) : Nat :=
  if 97 ≤ n ∧ n ≤ 122 then n - 32 else n

/-- The replace of the Greek small mu (U+03BC) by the micro sign (U+00B5)
performed inside normalize_unit, as a character map (the pattern and the
replacement are single characters). -/
def microChar (n : Nat) : Nat := if n = 956 then 181 else n

/-- Model of Python str.strip with no argument: drop whitespace from both
ends. -/
def pyStrip (s : PyStr) : PyStr :=
  ((s.dropWhile pyWs).reverse.dropWhile pyWs).reverse

/-- Model of the Python expression (value or "").strip() used by
_clean_text, with absent values as none. -/
def cleanOpt (v : Option PyStr) : PyStr := pyStrip (v.getD [])

/-- Accumulator for pySplit: the token currently being read (from the
right) together with the finished tokens. -/
def splitWsAux : PyStr → PyStr × List PyStr
  | [] => ([], [])
  | c :: cs =>
    let r := splitWsAux cs
    if pyWs c then ([], if r.1 = [] then r.2 else r.1 :: r.2)
    else (c :: r.1, r.2)

/-- Model of Python str.split with no argument: split on runs of
whitespace, discarding empty tokens. -/
def pySplit (s : PyStr) : List PyStr :=
  let r := splitWsAux s
  if r.1 = [] then r.2 else r.1 :: r.2

/-- Model of " ".join(tokens). -/
def joinSp : List PyStr → PyStr
  | [] => []
  | [t] => t
  | t :: ts => t ++ 32 :: joinSp ts

/-! ## Unit normalizer (src/app/services/regulatory.py, normalize_unit) -/

/-- The UNIT_ALIASES table of src/app/services/regulatory.py, keys and
values transcribed verbatim. -/
def UNIT_ALIASES : List (PyStr × PyStr) :=
  [ (strOf "%", strOf "%"),
    (strOf "percent", strOf "%"),
    (strOf "percentage", strOf "%"),
    (strOf "ppb", strOf "ug/kg"),
    (strOf "ug/kg", strOf "ug/kg"),
    (strOf "µg/kg", strOf "ug/kg"),
    (strOf "μg/kg", strOf "ug/kg"),
    (strOf "mcg/kg", strOf "ug/kg"),
    (strOf "ppm", strOf "mg/kg"),
    (strOf "mg/kg", strOf "mg/kg"),
    (strOf "cfu/g", strOf "cfu/g"),
    (strOf "cfu per g", strOf "cfu/g"),
    (strOf "cfu/25g", strOf "cfu/25g"),
    (strOf "cfu per 25g", strOf "cfu/25g"),
    (strOf "absence/25g", strOf "cfu/25g"),
    (strOf "absent/25g", strOf "cfu/25g") ]

/-- Dictionary lookup UNIT_ALIASES.get(compact). -/
def aliasLookup (s : PyStr) : Option PyStr :=
  (UNIT_ALIASES.find? (fun p => decide (p.1 = s))).map (fun p => p.2)

/-- Model of normalize_unit (src/app/services/regulatory.py lines 74-83):
strip, return "" when empty, lower-case, fold the Greek mu to the micro
sign, collapse whitespace, then look the compact form up in UNIT_ALIASES
(no alias value is empty, so the truthiness test of the source coincides
with the lookup succeeding). -/
def normalize_unit (raw_unit : PyStr) : PyStr :=
  let cleaned := pyStrip raw_unit
  if cleaned = [] then []
  else
    let lowered := (cleaned.map lowerChar).map microChar
    let compact := joinSp (pySplit lowered)
    match aliasLookup compact with
    | some canonical => canonical
    | none => compact

/-! ## Parameter code normalizer (src/app/services/compliance.py) -/

/-- ASCII alphanumeric, the complement of the regex class of non-word
characters replaced by normalize_parameter_code. -/
def isAlnum (n : Nat) : Bool :=
  (48 ≤ n && n ≤ 57) || (65 ≤ n && n ≤ 90) || (97 ≤ n && n ≤ 122)

/-- Model of re.sub collapsing each maximal run of non-alphanumeric
characters into one underscore; the Boolean records whether the previous
character was part of such a run. -/
def subNonAlnumAux : Bool → PyStr → PyStr
  | _, [] => []
  | inRun, c :: cs =>
    if isAlnum c then c :: subNonAlnumAux false cs
    else if inRun then subNonAlnumAux true cs
    else 95 :: subNonAlnumAux true cs

/-- The re.sub of normalize_parameter_code. -/
def subNonAlnum (s : PyStr) : PyStr := subNonAlnumAux false s

/-- Model of str.strip with argument, stripping the underscore from both
ends. -/
def stripUnd (s : PyStr) : PyStr :=
  ((s.dropWhile (fun n => decide (n = 95))).reverse.dropWhile (fun n => decide (n = 95))).reverse

/-- The alias table of normalize_parameter_code
(src/app/services/compliance.py lines 30-35). -/
def PARAM_ALIASES : List (PyStr × PyStr) :=
  [ (strOf "MOISTURE", strOf "MOISTURE"),
    (strOf "AFLATOXIN_B1", strOf "AFLA_B1"),
    (strOf "AFLA_B1", strOf "AFLA_B1"),
    (strOf "TOTAL_PLATE_COUNT", strOf "TPC") ]

/-- Model of normalize_parameter_code (src/app/services/compliance.py
lines 28-36): strip and upper-case the name, collapse runs of
non-alphanumerics to single underscores, strip underscores, then apply the
alias table with the key itself as default. -/
def normalize_parameter_code (parameter_name : PyStr) : PyStr :=
  let key := stripUnd (subNonAlnum ((pyStrip parameter_name).map upperChar))
  ((PARAM_ALIASES.find? (fun p => decide (p.1 = key))).map (fun p => p.2)).getD key

/-! ## Compliance evaluation (src/app/services/compliance.py,
evaluate_status). Floats and decimals are modelled as exact rationals;
in binary64 the expressions 1 - 0.1 and 1 + 0.1 of the source evaluate to
exactly 0.9 and 1.1, which the rational model mirrors. -/

/-- Model of evaluate_status (src/app/services/compliance.py lines 49-66).
Checks the minimum bound first, then the maximum; otherwise computes the
near-limit flag, the lower-limit check overwriting the upper-limit flag,
and derives WARNING from any non-NORMAL flag. -/
def evaluate_status (observed : ℚ) (limit_min limit_max : Option ℚ) : String × String :=
  if (match limit_min with | some m => decide (observed < m) | none => false) then
    ("FAIL", "OUT_OF_RANGE")
  else if (match limit_max with | some m => decide (observed > m) | none => false) then
    ("FAIL", "OUT_OF_RANGE")
  else
    let near_margin : ℚ := 1/10
    let flagUpper : String :=
      if (match limit_max with
          | some m => decide (observed ≥ m * (1 - near_margin))
          | none => false) then "NEAR_UPPER_LIMIT" else "NORMAL"
    let risk_flag : String :=
      if (match limit_min with
          | some m => decide (observed ≤ m * (1 + near_margin))
          | none => false) then "NEAR_LOWER_LIMIT" else flagUpper
    if risk_flag ≠ "NORMAL" then ("WARNING", risk_flag) else ("PASS", risk_flag)

/-- Restatement of the specified behaviour of evaluate_status in the order
the specification gives it: FAIL on a violated bound (min checked before
max), then WARNING with the near-lower flag overriding the near-upper
flag, with margins written as 1.1 and 0.9, else PASS/NORMAL. -/
def evaluateStatusSpec (observed : ℚ) (limit_min limit_max : Option ℚ) : String × String :=
  match limit_min, limit_max with
  | some mn, _ =>
    if observed < mn then ("FAIL", "OUT_OF_RANGE")
    else if (match limit_max with | some mx => decide (observed > mx) | none => false) then
      ("FAIL", "OUT_OF_RANGE")
    else if observed ≤ mn * (11/10) then ("WARNING", "NEAR_LOWER_LIMIT")
    else if (match limit_max with | some mx => decide (observed ≥ mx * (9/10)) | none => false) then
      ("WARNING", "NEAR_UPPER_LIMIT")
    else ("PASS", "NORMAL")
  | none, some mx =>
    if observed > mx then ("FAIL", "OUT_OF_RANGE")
    else if observed ≥ mx * (9/10) then ("WARNING", "NEAR_UPPER_LIMIT")
    else ("PASS", "NORMAL")
  | none, none => ("PASS", "NORMAL")

lemma eval_eq_spec (observed : ℚ) (limit_min limit_max : Option ℚ) :
    evaluate_status observed limit_min limit_max =
      evaluateStatusSpec observed limit_min limit_max := by
  cases limit_min with
  | none =>
    cases limit_max with
    | none => rfl
    | some mx =>
      have em : mx * (1 - (1/10 : ℚ)) = mx * (9/10) := by ring
      simp only [evaluate_status, evaluateStatusSpec, em]
      by_cases h2 : observed > mx <;> by_cases h4 : observed ≥ mx * (9/10 : ℚ) <;>
        simp [h2, h4]
  | some mn =>
    cases limit_max with
    | none =>
      have el : mn * (1 + (1/10 : ℚ)) = mn * (11/10) := by ring
      simp only [evaluate_status, evaluateStatusSpec, el]
      by_cases h1 : observed < mn <;> by_cases h3 : observed ≤ mn * (11/10 : ℚ) <;>
        simp [h1, h3]
    | some mx =>
      have em : mx * (1 - (1/10 : ℚ)) = mx * (9/10) := by ring
      have el : mn * (1 + (1/10 : ℚ)) = mn * (11/10) := by ring
      simp only [evaluate_status, evaluateStatusSpec, em, el]
      by_cases h1 : observed < mn <;> by_cases h2 : observed > mx <;>
        by_cases h3 : observed ≤ mn * (11/10 : ℚ) <;>
        by_cases h4 : observed ≥ mx * (9/10 : ℚ) <;>
        simp [h1, h2, h3, h4]

lemma spec_range (observed : ℚ) (limit_min limit_max : Option ℚ) :
    evaluateStatusSpec observed limit_min limit_max ∈
      [("FAIL", "OUT_OF_RANGE"), ("WARNING", "NEAR_UPPER_LIMIT"),
       ("WARNING", "NEAR_LOWER_LIMIT"), ("PASS", "NORMAL")] := by
  cases limit_min <;> cases limit_max <;>
    simp only [evaluateStatusSpec] <;> first | (split_ifs <;> simp) | simp

/-- C5: evaluate_status returns FAIL/OUT_OF_RANGE on a violated bound
(min-then-max, each checked only when present), else WARNING with
NEAR_UPPER_LIMIT when observed is at least 0.9 times the upper limit and
WARNING with NEAR_LOWER_LIMIT when observed is at most 1.1 times the lower
limit, the lower check overriding the upper flag, else PASS/NORMAL; in
particular evaluate_status 8.4 none (some 8.5) is WARNING/NEAR_UPPER_LIMIT
and with both limits absent it is PASS/NORMAL. -/
theorem evaluate_status_matches_spec :
    (∀ (observed : ℚ) (limit_min limit_max : Option ℚ),
      evaluate_status observed limit_min limit_max =
        evaluateStatusSpec observed limit_min limit_max) ∧
    evaluate_status (84/10) none (some (85/10)) = ("WARNING", "NEAR_UPPER_LIMIT") ∧
    (∀ observed : ℚ, evaluate_status observed none none = ("PASS", "NORMAL")) := by
  refine ⟨eval_eq_spec, ?_, fun observed => rfl⟩
  rw [eval_eq_spec]
  norm_num [evaluateStatusSpec]

/-- C10: the pair returned by evaluate_status is always one of exactly
four combinations, so WARNING appears exactly with a NEAR flag and PASS
exactly with NORMAL. -/
theorem evaluate_status_range :
    ∀ (observed : ℚ) (limit_min limit_max : Option ℚ),
      evaluate_status observed limit_min limit_max ∈
        [("FAIL", "OUT_OF_RANGE"), ("WARNING", "NEAR_UPPER_LIMIT"),
         ("WARNING", "NEAR_LOWER_LIMIT"), ("PASS", "NORMAL")] := by
  intro observed limit_min limit_max
  rw [eval_eq_spec]
  exact spec_range observed limit_min limit_max

/-! ## Idempotence of the normalizers (claim C6) -/

/-- Tokens produced by pySplit: nonempty and whitespace-free. -/
def wsFree (t : PyStr) : Prop := ∀ c ∈ t, pyWs c = false

/-- A well-formed token list: every token nonempty and whitespace-free. -/
def goodTokens (ts : List PyStr) : Prop := ∀ t ∈ ts, t ≠ [] ∧ wsFree t

lemma dropWhile_eq_self_head {p : Nat → Bool} {s : PyStr}
    (h : ∀ c ∈ s.head?, p c = false) : s.dropWhile p = s := by
  cases s with
  | nil => rfl
  | cons a t => simp [List.dropWhile_cons, h a rfl]

lemma pyStrip_eq_self {s : PyStr} (h1 : ∀ c ∈ s.head?, pyWs c = false)
    (h2 : ∀ c ∈ s.getLast?, pyWs c = false) : pyStrip s = s := by
  unfold pyStrip
  rw [dropWhile_eq_self_head h1, dropWhile_eq_self_head ?hx, List.reverse_reverse]
  case hx =>
    intro c hc
    rw [List.head?_reverse] at hc
    exact h2 c hc

lemma splitWsAux_good (s : PyStr) :
    wsFree (splitWsAux s).1 ∧ goodTokens (splitWsAux s).2 := by
  induction s with
  | nil => exact ⟨fun c hc => absurd hc (List.not_mem_nil c), fun t ht => absurd ht (List.not_mem_nil t)⟩
  | cons c cs ih =>
    simp only [splitWsAux]
    by_cases hws : pyWs c
    · simp only [hws, if_true]
      refine ⟨fun x hx => absurd hx (List.not_mem_nil x), ?_⟩
      by_cases hnil : (splitWsAux cs).1 = []
      · simpa [hnil] using ih.2
      · simp only [hnil, if_neg]
        intro t ht
        rcases List.mem_cons.mp ht with rfl | ht2
        · exact ⟨hnil, ih.1⟩
        · exact ih.2 t ht2
    · simp only [hws, if_false]
      refine ⟨?_, ih.2⟩
      intro x hx
      rcases List.mem_cons.mp hx with rfl | hx2
      · simpa using hws
      · exact ih.1 x hx2

lemma pySplit_good (s : PyStr) : goodTokens (pySplit s) := by
  unfold pySplit
  by_cases hnil : (splitWsAux s).1 = []
  · simpa [hnil] using (splitWsAux_good s).2
  · simp only [hnil, if_neg]
    intro t ht
    rcases List.mem_cons.mp ht with rfl | ht2
    · exact ⟨hnil, (splitWsAux_good s).1⟩
    · exact (splitWsAux_good s).2 t ht2

lemma splitWsAux_append_token {t : PyStr} (rest : PyStr) (h : wsFree t) :
    splitWsAux (t ++ rest) = (t ++ (splitWsAux rest).1, (splitWsAux rest).2) := by
  induction t with
  | nil => simp
  | cons c cs ih =>
    have hc : pyWs c = false := h c (by simp)
    have hcs : wsFree cs := fun x hx => h x (by simp [hx])
    simp only [List.cons_append, splitWsAux, hc, if_false, Bool.false_eq_true, List.append_eq]
    rw [ih hcs]

lemma splitWsAux_joinSp : ∀ (t : PyStr) (ts : List PyStr), goodTokens (t :: ts) →
    splitWsAux (joinSp (t :: ts)) = (t, ts) := by
  intro t ts
  induction ts generalizing t with
  | nil =>
    intro h
    have := splitWsAux_append_token (t := t) [] (h t (by simp)).2
    simpa [joinSp, splitWsAux] using this
  | cons t2 ts2 ih =>
    intro h
    have ht : wsFree t := (h t (by simp)).2
    have h2 : goodTokens (t2 :: ts2) := fun x hx => h x (by simp [List.mem_cons] at hx ⊢; tauto)
    have hrec := ih t2 h2
    have ht2ne : t2 ≠ [] := (h t2 (by simp)).1
    show splitWsAux (t ++ 32 :: joinSp (t2 :: ts2)) = (t, t2 :: ts2)
    rw [splitWsAux_append_token _ ht]
    simp only [splitWsAux, hrec]
    norm_num [pyWs, ht2ne]

lemma pySplit_joinSp {ts : List PyStr} (h : goodTokens ts) :
    pySplit (joinSp ts) = ts := by
  cases ts with
  | nil => rfl
  | cons t ts2 =>
    unfold pySplit
    rw [splitWsAux_joinSp t ts2 h]
    simp [(h t (by simp)).1]

lemma mem_joinSp {c : Nat} : ∀ {ts : List PyStr}, c ∈ joinSp ts →
    (∃ t ∈ ts, c ∈ t) ∨ c = 32 := by
  intro ts
  induction ts with
  | nil => intro h; exact absurd h (List.not_mem_nil c)
  | cons t ts2 ih =>
    intro h
    cases ts2 with
    | nil =>
      exact Or.inl ⟨t, by simp, by simpa [joinSp] using h⟩
    | cons t2 ts3 =>
      simp only [joinSp, List.mem_append, List.mem_cons] at h
      rcases h with h | h | h
      · exact Or.inl ⟨t, by simp, h⟩
      · exact Or.inr h
      · rcases ih h with ⟨u, hu, hcu⟩ | h32
        · exact Or.inl ⟨u, by simp [hu], hcu⟩
        · exact Or.inr h32

lemma joinSp_head? {t : PyStr} (ts : List PyStr) (h : t ≠ []) :
    (joinSp (t :: ts)).head? = t.head? := by
  cases ts with
  | nil => rfl
  | cons t2 ts2 =>
    show (t ++ 32 :: joinSp (t2 :: ts2)).head? = t.head?
    cases t with
    | nil => exact absurd rfl h
    | cons a u => rfl

lemma joinSp_ne_nil {t : PyStr} (ts : List PyStr) (h : t ≠ []) :
    joinSp (t :: ts) ≠ [] := by
  cases ts with
  | nil => simpa [joinSp] using h
  | cons t2 ts2 =>
    show t ++ 32 :: joinSp (t2 :: ts2) ≠ []
    simp

lemma joinSp_getLast? : ∀ (ts : List PyStr), goodTokens ts → ts ≠ [] →
    ∃ u ∈ ts, (joinSp ts).getLast? = u.getLast? := by
  intro ts
  induction ts with
  | nil => intro _ h; exact absurd rfl h
  | cons t ts2 ih =>
    intro hg _
    cases ts2 with
    | nil => exact ⟨t, by simp, rfl⟩
    | cons t2 ts3 =>
      have h2 : goodTokens (t2 :: ts3) := fun x hx => hg x (by simp [List.mem_cons] at hx ⊢; tauto)
      rcases ih h2 (by simp) with ⟨u, hu, heq⟩
      refine ⟨u, by simp [List.mem_cons] at hu ⊢; tauto, ?_⟩
      show (t ++ 32 :: joinSp (t2 :: ts3)).getLast? = u.getLast?
      rw [List.getLast?_append_of_ne_nil _ (by simp)]
      have hne := joinSp_ne_nil ts3 (hg t2 (by simp)).1
      cases hj : joinSp (t2 :: ts3) with
      | nil => exact absurd hj hne
      | cons y ys =>
        rw [hj] at heq
        rw [List.getLast?_cons_cons, heq]

lemma lowerMicro_fixed (n : Nat) :
    microChar (lowerChar (microChar (lowerChar n))) = microChar (lowerChar n) := by
  unfold lowerChar microChar
  split_ifs <;> omega

lemma lowerMicro_not_ws {n : Nat} (h : pyWs n = false) :
    pyWs (microChar (lowerChar n)) = false := by
  unfold lowerChar microChar
  simp only [pyWs, Bool.or_eq_false_iff, decide_eq_false_iff_not] at h ⊢
  split_ifs <;> omega

lemma splitWsAux_mem (s : PyStr) :
    (∀ c ∈ (splitWsAux s).1, c ∈ s) ∧ (∀ t ∈ (splitWsAux s).2, ∀ c ∈ t, c ∈ s) := by
  induction s with
  | nil =>
    exact ⟨fun c hc => absurd hc (List.not_mem_nil c),
           fun t ht => absurd ht (List.not_mem_nil t)⟩
  | cons a cs ih =>
    simp only [splitWsAux]
    by_cases hws : pyWs a
    · simp only [hws, if_true]
      refine ⟨fun c hc => absurd hc (List.not_mem_nil c), ?_⟩
      by_cases hnil : (splitWsAux cs).1 = []
      · simp only [hnil, if_pos]
        intro t ht c hc
        exact List.mem_cons_of_mem a (ih.2 t ht c hc)
      · simp only [hnil, if_neg]
        intro t ht c hc
        rcases List.mem_cons.mp ht with rfl | ht2
        · exact List.mem_cons_of_mem a (ih.1 c hc)
        · exact List.mem_cons_of_mem a (ih.2 t ht2 c hc)
    · simp only [hws, if_false]
      constructor
      · intro c hc
        rcases List.mem_cons.mp hc with rfl | hc2
        · exact List.mem_cons_self _ _
        · exact List.mem_cons_of_mem a (ih.1 c hc2)
      · intro t ht c hc
        exact List.mem_cons_of_mem a (ih.2 t ht c hc)

lemma pySplit_mem {s : PyStr} {t : PyStr} (ht : t ∈ pySplit s) {c : Nat} (hc : c ∈ t) :
    c ∈ s := by
  unfold pySplit at ht
  by_cases hnil : (splitWsAux s).1 = []
  · rw [if_pos hnil] at ht
    exact (splitWsAux_mem s).2 t ht c hc
  · rw [if_neg hnil] at ht
    rcases List.mem_cons.mp ht with rfl | ht2
    · exact (splitWsAux_mem s).1 c hc
    · exact (splitWsAux_mem s).2 t ht2 c hc

lemma pySplit_ne_nil {s : PyStr} {c : Nat} (hc : c ∈ s) (hw : pyWs c = false) :
    pySplit s ≠ [] := by
  have key : ∀ (u : PyStr), c ∈ u → ((splitWsAux u).1 ≠ [] ∨ (splitWsAux u).2 ≠ []) := by
    intro u
    induction u with
    | nil => intro h; exact absurd h (List.not_mem_nil c)
    | cons a cs ih =>
      intro h
      simp only [splitWsAux]
      by_cases hws : pyWs a
      · have hac : c ∈ cs := by
          rcases List.mem_cons.mp h with rfl | h2
          · exact absurd hws (by simp [hw])
          · exact h2
        rcases ih hac with h1 | h2
        · simp only [hws, if_true]
          right
          intro habs
          rw [if_neg h1] at habs
          exact List.cons_ne_nil _ _ habs
        · simp only [hws, if_true]
          right
          by_cases h1 : (splitWsAux cs).1 = []
          · simpa [h1] using h2
          · simp [h1]
      · simp only [hws, if_false]
        left
        exact List.cons_ne_nil _ _
  unfold pySplit
  rcases key s hc with h1 | h2
  · simp [h1]
  · by_cases h1 : (splitWsAux s).1 = []
    · simpa [h1] using h2
    · simp [h1]

lemma pyStrip_has_not_ws {s : PyStr} (h : pyStrip s ≠ []) :
    ∃ c ∈ pyStrip s, pyWs c = false := by
  unfold pyStrip at h ⊢
  set u := (s.dropWhile pyWs).reverse.dropWhile pyWs with hu
  cases hv : u with
  | nil => rw [hv] at h; simp at h
  | cons a t =>
    have ha : pyWs a = false := by
      have := List.head?_dropWhile_not pyWs (s.dropWhile pyWs).reverse
      rw [← hu, hv] at this
      simpa using this
    exact ⟨a, by simp [hv], ha⟩

lemma normalize_unit_alias_values : ∀ p ∈ UNIT_ALIASES, normalize_unit p.2 = p.2 := by decide

lemma aliasLookup_mem {s v : PyStr} (h : aliasLookup s = some v) :
    ∃ p ∈ UNIT_ALIASES, p.2 = v := by
  unfold aliasLookup at h
  cases hf : UNIT_ALIASES.find? (fun p => decide (p.1 = s)) with
  | none => rw [hf] at h; simp at h
  | some p =>
    rw [hf] at h
    exact ⟨p, List.mem_of_find?_eq_some hf, by simpa using h⟩

lemma normalize_unit_eq_of_ne {s : PyStr} (h : pyStrip s ≠ []) :
    normalize_unit s =
      (match aliasLookup (joinSp (pySplit (((pyStrip s).map lowerChar).map microChar))) with
       | some canonical => canonical
       | none => joinSp (pySplit (((pyStrip s).map lowerChar).map microChar))) := by
  simp only [normalize_unit]
  rw [if_neg h]

lemma normalize_unit_idem (s : PyStr) :
    normalize_unit (normalize_unit s) = normalize_unit s := by
  by_cases h0 : pyStrip s = []
  · have h1 : normalize_unit s = [] := by
      simp only [normalize_unit]
      rw [if_pos h0]
    rw [h1]
    simp [normalize_unit, pyStrip]
  · set lowered := ((pyStrip s).map lowerChar).map microChar with hlow
    set ts := pySplit lowered with hts
    set compact := joinSp ts with hcomp
    have hnu := normalize_unit_eq_of_ne h0
    rw [← hlow, ← hts, ← hcomp] at hnu
    have good : goodTokens ts := pySplit_good lowered
    obtain ⟨c, hcmem, hcws⟩ := pyStrip_has_not_ws h0
    have hlmem : microChar (lowerChar c) ∈ lowered := by
      rw [hlow]
      exact List.mem_map_of_mem _ (List.mem_map_of_mem _ hcmem)
    have htsne : ts ≠ [] := pySplit_ne_nil hlmem (lowerMicro_not_ws hcws)
    obtain ⟨t0, ts2, hts0⟩ : ∃ t0 ts2, ts = t0 :: ts2 := by
      cases hx : ts with
      | nil => exact absurd hx htsne
      | cons a b => exact ⟨a, b, rfl⟩
    have ht0 := good t0 (by rw [hts0]; exact List.mem_cons_self _ _)
    have hcompne : compact ≠ [] := by
      rw [hcomp, hts0]
      exact joinSp_ne_nil ts2 ht0.1
    have hstrip : pyStrip compact = compact := by
      apply pyStrip_eq_self
      · intro x hx
        rw [hcomp, hts0, joinSp_head? ts2 ht0.1] at hx
        exact ht0.2 x (List.mem_of_mem_head? hx)
      · intro x hx
        obtain ⟨u, hu, hul⟩ := joinSp_getLast? ts good htsne
        rw [hcomp, hul] at hx
        exact (good u hu).2 x (List.mem_of_mem_getLast? hx)
    have hfix : ∀ x ∈ compact, microChar (lowerChar x) = x := by
      intro x hx
      rw [hcomp] at hx
      rcases mem_joinSp hx with ⟨u, hu, hxu⟩ | h32
      · have hxl : x ∈ lowered := pySplit_mem (hts ▸ hu) hxu
        rw [hlow] at hxl
        simp only [List.mem_map] at hxl
        obtain ⟨a, ⟨b, _, rfl⟩, rfl⟩ := hxl
        exact lowerMicro_fixed b
      · rw [h32]
        decide
    have hmap : (compact.map lowerChar).map microChar = compact := by
      rw [List.map_map]
      conv_rhs => rw [← List.map_id compact]
      exact List.map_congr_left (fun x hx => hfix x hx)
    have hsplit2 : pySplit compact = ts := by
      rw [hcomp]
      exact pySplit_joinSp good
    rw [hnu]
    cases hal : aliasLookup compact with
    | some canonical =>
      simp only [hal]
      obtain ⟨p, hp, rfl⟩ := aliasLookup_mem hal
      exact normalize_unit_alias_values p hp
    | none =>
      simp only [hal]
      have h2 := normalize_unit_eq_of_ne (s := compact) (by rw [hstrip]; exact hcompne)
      rw [hstrip, hmap, hsplit2, ← hcomp, hal] at h2
      exact h2.trans rfl

lemma upperChar_fixed (n : Nat) : upperChar (upperChar n) = upperChar n := by
  unfold upperChar
  split_ifs <;> omega

/-- Strings whose characters are ASCII alphanumerics or the underscore. -/
def okChars (s : PyStr) : Prop := ∀ c ∈ s, isAlnum c = true ∨ c = 95

/-- No two adjacent underscores. -/
def noDoubleUnd (s : PyStr) : Prop :=
  List.Chain' (fun a b => ¬(a = 95 ∧ b = 95)) s

lemma subAux_head_true (s : PyStr) :
    subNonAlnumAux true s = [] ∨
      ∃ c t, subNonAlnumAux true s = c :: t ∧ isAlnum c = true := by
  induction s with
  | nil => exact Or.inl rfl
  | cons a cs ih =>
    simp only [subNonAlnumAux]
    by_cases ha : isAlnum a
    · exact Or.inr ⟨a, subNonAlnumAux false cs, by simp [ha]⟩
    · simpa [ha] using ih

lemma subAux_ok (b : Bool) (s : PyStr) : okChars (subNonAlnumAux b s) := by
  induction s generalizing b with
  | nil => intro c hc; exact absurd hc (List.not_mem_nil c)
  | cons a cs ih =>
    intro c hc
    simp only [subNonAlnumAux] at hc
    by_cases ha : isAlnum a
    · rw [if_pos ha] at hc
      rcases List.mem_cons.mp hc with rfl | hc2
      · exact Or.inl ha
      · exact ih false c hc2
    · rw [if_neg ha] at hc
      by_cases hb : b
      · rw [if_pos hb] at hc
        exact ih true c hc
      · rw [if_neg hb] at hc
        rcases List.mem_cons.mp hc with rfl | hc2
        · exact Or.inr rfl
        · exact ih true c hc2

lemma subAux_chain (b : Bool) (s : PyStr) : noDoubleUnd (subNonAlnumAux b s) := by
  unfold noDoubleUnd
  induction s generalizing b with
  | nil => exact List.chain'_nil
  | cons a cs ih =>
    simp only [subNonAlnumAux]
    by_cases ha : isAlnum a
    · rw [if_pos ha]
      rw [List.chain'_cons']
      refine ⟨?_, ih false⟩
      intro y _
      intro ⟨h95, _⟩
      rw [h95] at ha
      exact absurd ha (by decide)
    · rw [if_neg ha]
      by_cases hb : b
      · rw [if_pos hb]
        exact ih true
      · rw [if_neg hb]
        rw [List.chain'_cons']
        refine ⟨?_, ih true⟩
        intro y hy
        intro ⟨_, hy95⟩
        rcases subAux_head_true cs with hnil | ⟨c, t, hct, hcal⟩
        · rw [hnil] at hy
          exact absurd hy (by simp)
        · rw [hct] at hy
          simp only [List.head?_cons, Option.mem_def, Option.some.injEq] at hy
          rw [hy, hy95] at hcal
          exact absurd hcal (by decide)

lemma subAux_mem {b : Bool} {s : PyStr} {c : Nat} (hc : c ∈ subNonAlnumAux b s) :
    c = 95 ∨ c ∈ s := by
  induction s generalizing b with
  | nil => exact absurd hc (List.not_mem_nil c)
  | cons a cs ih =>
    simp only [subNonAlnumAux] at hc
    by_cases ha : isAlnum a
    · rw [if_pos ha] at hc
      rcases List.mem_cons.mp hc with rfl | hc2
      · exact Or.inr (List.mem_cons_self _ _)
      · rcases ih hc2 with h | h
        · exact Or.inl h
        · exact Or.inr (List.mem_cons_of_mem a h)
    · rw [if_neg ha] at hc
      by_cases hb : b
      · rw [if_pos hb] at hc
        rcases ih hc with h | h
        · exact Or.inl h
        · exact Or.inr (List.mem_cons_of_mem a h)
      · rw [if_neg hb] at hc
        rcases List.mem_cons.mp hc with rfl | hc2
        · exact Or.inl rfl
        · rcases ih hc2 with h | h
          · exact Or.inl h
          · exact Or.inr (List.mem_cons_of_mem a h)

lemma subAux_fixed : ∀ (s : PyStr), okChars s → noDoubleUnd s →
    subNonAlnumAux false s = s := by
  intro s
  induction s with
  | nil => intro _ _; rfl
  | cons a cs ih =>
    intro hok hch
    have hcs_ok : okChars cs := fun c hc => hok c (List.mem_cons_of_mem a hc)
    have hcs_ch : noDoubleUnd cs := (List.chain'_cons'.mp hch).2
    rcases hok a (List.mem_cons_self _ _) with ha | ha
    · simp only [subNonAlnumAux, if_pos ha]
      rw [ih hcs_ok hcs_ch]
    · subst ha
      have h95 : isAlnum 95 = false := by decide
      simp only [subNonAlnumAux, h95, Bool.false_eq_true, if_false]
      cases cs with
      | nil => rfl
      | cons d cs2 =>
        have hd : isAlnum d = true := by
          have hne := (List.chain'_cons'.mp hch).1 d (by simp)
          rcases hcs_ok d (List.mem_cons_self _ _) with h | h
          · exact h
          · exact absurd ⟨rfl, h⟩ hne
        simp only [subNonAlnumAux, if_pos hd]
        have := ih hcs_ok hcs_ch
        simp only [subNonAlnumAux, if_pos hd] at this
        rw [List.cons.injEq] at this
        rw [this.2]

lemma chain'_dropWhile {R : Nat → Nat → Prop} {p : Nat → Bool} :
    ∀ (l : PyStr), List.Chain' R l → List.Chain' R (l.dropWhile p) := by
  intro l
  induction l with
  | nil => intro h; exact h
  | cons a t ih =>
    intro h
    rw [List.dropWhile_cons]
    by_cases hp : p a = true
    · rw [if_pos hp]
      exact ih (List.chain'_cons'.mp h).2
    · rw [if_neg hp]
      exact h

lemma getLast?_dropWhile_ne_nil {p : Nat → Bool} :
    ∀ (l : PyStr), l.dropWhile p ≠ [] → (l.dropWhile p).getLast? = l.getLast? := by
  intro l
  induction l with
  | nil => intro h; exact absurd rfl h
  | cons a t ih =>
    intro h
    rw [List.dropWhile_cons] at h ⊢
    by_cases hp : p a = true
    · rw [if_pos hp] at h ⊢
      rw [ih h]
      cases t with
      | nil => exact absurd rfl h
      | cons b t2 => rw [List.getLast?_cons_cons]
    · rw [if_neg hp]

lemma stripUnd_mem {s : PyStr} {c : Nat} (hc : c ∈ stripUnd s) : c ∈ s := by
  unfold stripUnd at hc
  rw [List.mem_reverse] at hc
  have hc2 := (List.dropWhile_sublist _).subset hc
  rw [List.mem_reverse] at hc2
  exact (List.dropWhile_sublist _).subset hc2

lemma stripUnd_chain {s : PyStr} (h : noDoubleUnd s) : noDoubleUnd (stripUnd s) := by
  unfold noDoubleUnd at *
  unfold stripUnd
  have h1 := chain'_dropWhile (p := fun n => decide (n = 95)) s h
  have h2 : List.Chain' (fun a b => ¬(a = 95 ∧ b = 95))
      ((s.dropWhile fun n => decide (n = 95)).reverse) := by
    rw [List.chain'_reverse]
    exact h1.imp (fun a b hab => fun hx => hab ⟨hx.2, hx.1⟩)
  have h3 := chain'_dropWhile (p := fun n => decide (n = 95)) _ h2
  rw [List.chain'_reverse]
  exact h3.imp (fun a b hab => fun hx => hab ⟨hx.2, hx.1⟩)

lemma stripUnd_getLast_ne {s : PyStr} : ∀ c ∈ (stripUnd s).getLast?, c ≠ 95 := by
  intro c hc
  unfold stripUnd at hc
  rw [List.getLast?_reverse] at hc
  have hd := List.head?_dropWhile_not (fun n => decide (n = 95))
    ((s.dropWhile fun n => decide (n = 95)).reverse)
  cases hh : (((s.dropWhile fun n => decide (n = 95)).reverse).dropWhile
      fun n => decide (n = 95)).head? with
  | none => rw [hh] at hc; exact absurd hc (by simp)
  | some x =>
    rw [hh] at hd hc
    simp only [Option.mem_def, Option.some.injEq] at hc
    subst hc
    simpa using hd

lemma stripUnd_head_ne {s : PyStr} : ∀ c ∈ (stripUnd s).head?, c ≠ 95 := by
  intro c hc
  unfold stripUnd at hc
  rw [List.head?_reverse] at hc
  by_cases hnil : (((s.dropWhile fun n => decide (n = 95)).reverse).dropWhile
      fun n => decide (n = 95)) = []
  · rw [hnil] at hc
    exact absurd hc (by simp)
  · rw [getLast?_dropWhile_ne_nil _ hnil, List.getLast?_reverse] at hc
    have hd := List.head?_dropWhile_not (fun n => decide (n = 95)) s
    cases hh : (s.dropWhile fun n => decide (n = 95)).head? with
    | none => rw [hh] at hc; exact absurd hc (by simp)
    | some x =>
      rw [hh] at hd hc
      simp only [Option.mem_def, Option.some.injEq] at hc
      subst hc
      simpa using hd

lemma stripUnd_eq_self {s : PyStr} (h1 : ∀ c ∈ s.head?, c ≠ 95)
    (h2 : ∀ c ∈ s.getLast?, c ≠ 95) : stripUnd s = s := by
  have hq1 : s.dropWhile (fun n => decide (n = 95)) = s :=
    dropWhile_eq_self_head (fun c hc => by simpa using h1 c hc)
  unfold stripUnd
  rw [hq1]
  have hq2 : s.reverse.dropWhile (fun n => decide (n = 95)) = s.reverse :=
    dropWhile_eq_self_head (fun c hc => by
      rw [List.head?_reverse] at hc
      simpa using h2 c hc)
  rw [hq2, List.reverse_reverse]

lemma okChars_not_ws {c : Nat} (h : isAlnum c = true ∨ c = 95) : pyWs c = false := by
  simp only [isAlnum, Bool.or_eq_true, Bool.and_eq_true, decide_eq_true_eq] at h
  simp only [pyWs, Bool.or_eq_false_iff, decide_eq_false_iff_not]
  omega

lemma np_alias_values : ∀ p ∈ PARAM_ALIASES, normalize_parameter_code p.2 = p.2 := by decide

lemma normalize_parameter_code_idem (s : PyStr) :
    normalize_parameter_code (normalize_parameter_code s) = normalize_parameter_code s := by
  set z := subNonAlnum ((pyStrip s).map upperChar) with hz
  set key := stripUnd z with hkey
  have hnp : normalize_parameter_code s =
      ((PARAM_ALIASES.find? (fun p => decide (p.1 = key))).map (fun p => p.2)).getD key := rfl
  cases hf : PARAM_ALIASES.find? (fun p => decide (p.1 = key)) with
  | some p =>
    rw [hnp, hf]
    simp only [Option.map_some', Option.getD_some]
    exact np_alias_values p (List.mem_of_find?_eq_some hf)
  | none =>
    rw [hnp, hf]
    simp only [Option.map_none', Option.getD_none]
    have hokz : okChars z := by
      rw [hz]
      exact subAux_ok false _
    have hchz : noDoubleUnd z := by
      rw [hz]
      exact subAux_chain false _
    have hok : okChars key := fun c hc => hokz c (stripUnd_mem hc)
    have hch : noDoubleUnd key := stripUnd_chain hchz
    have hup : ∀ c ∈ key, upperChar c = c := by
      intro c hc
      have hcz := stripUnd_mem hc
      rw [hz] at hcz
      rcases subAux_mem hcz with h95 | hmem
      · subst h95
        decide
      · rcases List.mem_map.mp hmem with ⟨y, _, rfl⟩
        exact upperChar_fixed y
    have hnws : ∀ c ∈ key, pyWs c = false := fun c hc => okChars_not_ws (hok c hc)
    have hstrip : pyStrip key = key :=
      pyStrip_eq_self (fun c hc => hnws c (List.mem_of_mem_head? hc))
        (fun c hc => hnws c (List.mem_of_mem_getLast? hc))
    have hmap : key.map upperChar = key := by
      conv_rhs => rw [← List.map_id key]
      exact List.map_congr_left hup
    have hsub : subNonAlnum key = key := subAux_fixed key hok hch
    have hsu : stripUnd key = key := by
      rw [hkey]
      exact stripUnd_eq_self stripUnd_head_ne stripUnd_getLast_ne
    have h2 : normalize_parameter_code key =
        ((PARAM_ALIASES.find? (fun p =>
            decide (p.1 = stripUnd (subNonAlnum ((pyStrip key).map upperChar))))).map
          (fun p => p.2)).getD (stripUnd (subNonAlnum ((pyStrip key).map upperChar))) := rfl
    rw [h2, hstrip, hmap, hsub, hsu, hf]
    simp

/-- C6: normalize_unit is idempotent on every string, and so is
normalize_parameter_code. -/
theorem normalizers_idempotent :
    ∀ s : PyStr, normalize_unit (normalize_unit s) = normalize_unit s ∧
      normalize_parameter_code (normalize_parameter_code s) =
        normalize_parameter_code s :=
  fun s => ⟨normalize_unit_idem s, normalize_parameter_code_idem s⟩

/-! ## C7: behaviour of normalize_unit on unknown units -/

/-- C7 counterexample: the string KG is not a key of UNIT_ALIASES (nor is
its cleaned form kg), yet normalize_unit does not return it unchanged: the
function lower-cases before the alias lookup, so unknown units do not pass
through verbatim. -/
theorem normalize_unit_changes_unknown_unit :
    aliasLookup (strOf "KG") = none ∧ aliasLookup (strOf "kg") = none ∧
      normalize_unit (strOf "KG") = strOf "kg" ∧
      normalize_unit (strOf "KG") ≠ strOf "KG" := by decide

/-- C7 amended: an unknown unit passes through unchanged only up to the
cleaning pipeline; an input that is already trimmed, lower-cased with the
micro sign folded, and single-space collapsed, and whose form is not an
alias key, is returned verbatim (and the function never fails). -/
theorem normalize_unit_unknown_passthrough (s : PyStr) (hne : s ≠ [])
    (hstrip : pyStrip s = s)
    (hlow : (s.map lowerChar).map microChar = s)
    (hcompact : joinSp (pySplit s) = s)
    (halias : aliasLookup s = none) :
    normalize_unit s = s := by
  have h := normalize_unit_eq_of_ne (s := s) (by rw [hstrip]; exact hne)
  rw [hstrip, hlow, hcompact, halias] at h
  exact h.trans rfl

/-- C7 witness: the unknown unit kg, already in cleaned form, is returned
unchanged. -/
theorem normalize_unit_unknown_passthrough_witness :
    normalize_unit (strOf "kg") = strOf "kg" :=
  normalize_unit_unknown_passthrough (strOf "kg") (by decide) (by decide)
    (by decide) (by decide) (by decide)

/-! ## Threshold CSV parsing (src/app/services/regulatory.py,
parse_threshold_csv). The csv.DictReader layer and the header checks are
modelled away: a CSV data row under a validated header is exactly a record
giving an optional string per recognized column (absent columns read as
None via dict.get). Decimal parsing is modelled for the plain
sign/digits/fraction grammar; the exponent and special forms of Python
Decimal are not needed by any claim. -/

/-- One CSV data row as csv.DictReader delivers it: an optional raw string
per recognized column. -/
structure RawRow where
  product_category : Option PyStr
  parameter_name : Option PyStr
  unit : Option PyStr
  parameter_code : Option PyStr
  limit_min : Option PyStr
  limit_max : Option PyStr
  severity : Option PyStr
  source_clause : Option PyStr
  remarks : Option PyStr
deriving DecidableEq

/-- One validated threshold row as built by the parse loop. -/
structure ThresholdRow where
  product_category : PyStr
  parameter_code : PyStr
  parameter_name : PyStr
  limit_min : Option ℚ
  limit_max : Option ℚ
  unit : PyStr
  unit_raw : PyStr
  severity : PyStr
  source_clause : PyStr
  remarks : Option PyStr
deriving DecidableEq

/-- The per-row validation errors of parse_threshold_csv, one constructor
per f-string of the source (the human-readable text is presentation). -/
inductive ParseError where
  | productCategoryRequired (row_num : Nat)
  | parameterNameRequired (row_num : Nat)
  | unitRequired (row_num : Nat)
  | invalidNumeric (row_num : Nat) (raw : PyStr)
  | limitRequired (row_num : Nat)
  | invalidSeverity (row_num : Nat)
  | sourceClauseRequired (row_num : Nat)
  | duplicateKey (product_category parameter_code : PyStr)
deriving DecidableEq

/-- ALLOWED_SEVERITIES of the source. -/
def ALLOWED_SEVERITIES : List PyStr :=
  [strOf "low", strOf "medium", strOf "high", strOf "critical"]

def allDigits (l : PyStr) : Bool := l.all (fun c => 48 ≤ c && c ≤ 57)

def digitsVal (l : PyStr) : Nat := l.foldl (fun acc c => acc * 10 + (c - 48)) 0

/-- Unsigned decimal literal: digits with an optional fraction part. -/
def parseUnsigned (l : PyStr) : Option ℚ :=
  let intPart := l.takeWhile (fun c => decide (c ≠ 46))
  match l.dropWhile (fun c => decide (c ≠ 46)) with
  | [] =>
    if intPart ≠ [] ∧ allDigits intPart then some ((digitsVal intPart : Int) : ℚ)
    else none
  | 46 :: frac =>
    if (intPart ≠ [] ∨ frac ≠ []) ∧ allDigits intPart ∧ allDigits frac then
      some (mkRat (digitsVal intPart * 10 ^ frac.length + digitsVal frac) (10 ^ frac.length))
    else none
  | _ => none

/-- Model of decimal.Decimal on a stripped string: optional sign then an
unsigned literal. -/
def parseDecimal (l : PyStr) : Option ℚ :=
  match l with
  | 43 :: rest => parseUnsigned rest
  | 45 :: rest => (parseUnsigned rest).map (fun q => -q)
  | _ => parseUnsigned l

/-- Model of _parse_decimal (src/app/services/regulatory.py lines 58-67):
None and blank strings parse to None, malformed text raises carrying the
original value. -/
def parse_decimal? (value : Option PyStr) : Except PyStr (Option ℚ) :=
  match value with
  | none => Except.ok none
  | some v =>
    let raw := pyStrip v
    if raw = [] then Except.ok none
    else
      match parseDecimal raw with
      | some q => Except.ok (some q)
      | none => Except.error v

/-- The body of the row loop of parse_threshold_csv (source lines 112-164)
for one record: the optional built row (None when the row was skipped with
continue) and the errors recorded for this row, in order. The three
required-field checks record errors without skipping the row; the numeric,
limit-presence, severity and source-clause checks skip it. -/
def parseRow (row_num : Nat) (raw : RawRow) : Option ThresholdRow × List ParseError :=
  let product_category := cleanOpt raw.product_category
  let parameter_name := cleanOpt raw.parameter_name
  let unit_raw := cleanOpt raw.unit
  let unit := normalize_unit unit_raw
  let code0 := cleanOpt raw.parameter_code
  let parameter_code :=
    normalize_parameter_code
      (if code0 = [] then normalize_parameter_code parameter_name else code0)
  let e1 :=
    (if product_category = [] then [ParseError.productCategoryRequired row_num] else []) ++
    (if parameter_name = [] then [ParseError.parameterNameRequired row_num] else []) ++
    (if unit = [] then [ParseError.unitRequired row_num] else [])
  match parse_decimal? raw.limit_min with
  | Except.error v => (none, e1 ++ [ParseError.invalidNumeric row_num v])
  | Except.ok limit_min =>
    match parse_decimal? raw.limit_max with
    | Except.error v => (none, e1 ++ [ParseError.invalidNumeric row_num v])
    | Except.ok limit_max =>
      if limit_min = none ∧ limit_max = none then
        (none, e1 ++ [ParseError.limitRequired row_num])
      else
        let severity :=
          (if cleanOpt raw.severity = [] then strOf "critical"
           else cleanOpt raw.severity).map lowerChar
        if severity ∉ ALLOWED_SEVERITIES then
          (none, e1 ++ [ParseError.invalidSeverity row_num])
        else
          let source_clause := cleanOpt raw.source_clause
          if source_clause = [] then
            (none, e1 ++ [ParseError.sourceClauseRequired row_num])
          else
            let remarks := cleanOpt raw.remarks
            (some { product_category := product_category,
                    parameter_code := parameter_code,
                    parameter_name := parameter_name,
                    limit_min := limit_min,
                    limit_max := limit_max,
                    unit := unit,
                    unit_raw := unit_raw,
                    severity := severity,
                    source_clause := source_clause,
                    remarks := if remarks = [] then none else some remarks }, e1)

/-- The row loop, numbering data rows from 2 as the source does. -/
def parseRows : Nat → List RawRow → List ThresholdRow × List ParseError
  | _, [] => ([], [])
  | n, r :: rs =>
    let one := parseRow n r
    let rest := parseRows (n + 1) rs
    (match one.1 with
     | some row => row :: rest.1
     | none => rest.1, one.2 ++ rest.2)

/-- The duplicate key of a row used by the dedupe pass. -/
def rowKey (r : ThresholdRow) : PyStr × PyStr := (r.product_category, r.parameter_code)

/-- The dedupe error recorded for a dropped later occurrence. -/
def dupErr (r : ThresholdRow) : ParseError :=
  ParseError.duplicateKey r.product_category r.parameter_code

/-- The dedupe post-pass of parse_threshold_csv (source lines 166-177):
keep a row when its key is unseen, record a duplicate error otherwise. -/
def dedupeRows : List ThresholdRow → List (PyStr × PyStr) → List ThresholdRow × List ParseError
  | [], _ => ([], [])
  | r :: rs, seen =>
    if rowKey r ∈ seen then
      let rest := dedupeRows rs seen
      (rest.1, dupErr r :: rest.2)
    else
      let rest := dedupeRows rs (rowKey r :: seen)
      (r :: rest.1, rest.2)

/-- Model of parse_threshold_csv (source lines 91-179) from the record
level downward: run the row loop, then the dedupe pass, with the duplicate
errors appended after the row errors as the source appends them to the
same list. -/
def parse_threshold_csv (records : List RawRow) : List ThresholdRow × List ParseError :=
  let looped := parseRows 2 records
  let deduped := dedupeRows looped.1 []
  (deduped.1, looped.2 ++ deduped.2)

lemma dedupeRows_sublist : ∀ (rs : List ThresholdRow) (seen : List (PyStr × PyStr)),
    (dedupeRows rs seen).1.Sublist rs := by
  intro rs
  induction rs with
  | nil => intro seen; exact List.Sublist.refl []
  | cons r rs ih =>
    intro seen
    simp only [dedupeRows]
    by_cases hx : rowKey r ∈ seen
    · rw [if_pos hx]
      exact (ih seen).cons r
    · rw [if_neg hx]
      exact (ih (rowKey r :: seen)).cons₂ r

lemma dedupeRows_nodup : ∀ (rs : List ThresholdRow) (seen : List (PyStr × PyStr)),
    ((dedupeRows rs seen).1.map rowKey).Nodup ∧
      ∀ r ∈ (dedupeRows rs seen).1, rowKey r ∉ seen := by
  intro rs
  induction rs with
  | nil =>
    intro seen
    exact ⟨List.nodup_nil, fun r hr => absurd hr (List.not_mem_nil r)⟩
  | cons r rs ih =>
    intro seen
    simp only [dedupeRows]
    by_cases hx : rowKey r ∈ seen
    · rw [if_pos hx]
      exact ih seen
    · rw [if_neg hx]
      obtain ⟨hnd, hout⟩ := ih (rowKey r :: seen)
      refine ⟨?_, ?_⟩
      · simp only [List.map_cons, List.nodup_cons]
        refine ⟨?_, hnd⟩
        intro hmem
        rcases List.mem_map.mp hmem with ⟨u, hu, hku⟩
        exact hout u hu (by rw [hku]; exact List.mem_cons_self _ _)
      · intro u hu
        rcases List.mem_cons.mp hu with rfl | hu2
        · exact hx
        · intro hus
          exact hout u hu2 (List.mem_cons_of_mem _ hus)

lemma dedupeRows_keeps_first :
    ∀ (rs : List ThresholdRow) (seen : List (PyStr × PyStr)) (i : Nat) (h : i < rs.length),
      rowKey (rs.get ⟨i, h⟩) ∉ seen →
      (∀ r ∈ rs.take i, rowKey r ≠ rowKey (rs.get ⟨i, h⟩)) →
      rs.get ⟨i, h⟩ ∈ (dedupeRows rs seen).1 := by
  intro rs
  induction rs with
  | nil => intro seen i h; exact absurd h (by simp)
  | cons r rs ih =>
    intro seen i h hseen hfirst
    simp only [dedupeRows]
    cases i with
    | zero =>
      simp only [List.get] at hseen ⊢
      rw [if_neg hseen]
      exact List.mem_cons_self _ _
    | succ j =>
      have hj : j < rs.length := Nat.lt_of_succ_lt_succ h
      have hget : (r :: rs).get ⟨j + 1, h⟩ = rs.get ⟨j, hj⟩ := rfl
      rw [hget] at hseen hfirst ⊢
      by_cases hx : rowKey r ∈ seen
      · rw [if_pos hx]
        refine ih seen j hj hseen ?_
        intro u hu
        exact hfirst u (by simpa using Or.inr hu)
      · rw [if_neg hx]
        refine List.mem_cons_of_mem r (ih (rowKey r :: seen) j hj ?_ ?_)
        · intro hmem
          rcases List.mem_cons.mp hmem with heq | hmem2
          · exact hfirst r (by simp) heq.symm
          · exact hseen hmem2
        · intro u hu
          exact hfirst u (by simpa using Or.inr hu)

lemma dedupeRows_reports_later :
    ∀ (rs : List ThresholdRow) (seen : List (PyStr × PyStr)) (i : Nat) (h : i < rs.length),
      (rowKey (rs.get ⟨i, h⟩) ∈ seen ∨
        ∃ r ∈ rs.take i, rowKey r = rowKey (rs.get ⟨i, h⟩)) →
      dupErr (rs.get ⟨i, h⟩) ∈ (dedupeRows rs seen).2 := by
  intro rs
  induction rs with
  | nil => intro seen i h; exact absurd h (by simp)
  | cons r rs ih =>
    intro seen i h hdup
    simp only [dedupeRows]
    cases i with
    | zero =>
      simp only [List.get] at hdup ⊢
      rcases hdup with hseen | ⟨u, hu, _⟩
      · rw [if_pos hseen]
        exact List.mem_cons_self _ _
      · exact absurd hu (by simp)
    | succ j =>
      have hj : j < rs.length := Nat.lt_of_succ_lt_succ h
      have hget : (r :: rs).get ⟨j + 1, h⟩ = rs.get ⟨j, hj⟩ := rfl
      rw [hget] at hdup ⊢
      have htake : (r :: rs).take (j + 1) = r :: rs.take j := rfl
      rw [htake] at hdup
      by_cases hx : rowKey r ∈ seen
      · rw [if_pos hx]
        refine List.mem_cons_of_mem _ (ih seen j hj ?_)
        rcases hdup with hseen | ⟨u, hu, hku⟩
        · exact Or.inl hseen
        · rcases List.mem_cons.mp hu with rfl | hu2
          · exact Or.inl (by rw [← hku]; exact hx)
          · exact Or.inr ⟨u, hu2, hku⟩
      · rw [if_neg hx]
        refine ih (rowKey r :: seen) j hj ?_
        rcases hdup with hseen | ⟨u, hu, hku⟩
        · exact Or.inl (List.mem_cons_of_mem _ hseen)
        · rcases List.mem_cons.mp hu with rfl | hu2
          · exact Or.inl (by rw [← hku]; exact List.mem_cons_self _ _)
          · exact Or.inr ⟨u, hu2, hku⟩

/-- C8: in parse_threshold_csv, the returned rows carry pairwise distinct
(product_category, parameter_code) keys and form a sublist of the rows the
row loop accepted; a loop row whose key has no earlier occurrence is kept,
and every later occurrence of an already-seen key is reported as a
duplicate-key error in the errors list, never silently dropped. -/
theorem parse_threshold_csv_dedupes (records : List RawRow) :
    ((parse_threshold_csv records).1.map rowKey).Nodup ∧
    (parse_threshold_csv records).1.Sublist (parseRows 2 records).1 ∧
    (∀ i (h : i < (parseRows 2 records).1.length),
      ((∀ r ∈ (parseRows 2 records).1.take i,
          rowKey r ≠ rowKey ((parseRows 2 records).1.get ⟨i, h⟩)) →
        (parseRows 2 records).1.get ⟨i, h⟩ ∈ (parse_threshold_csv records).1) ∧
      ((∃ r ∈ (parseRows 2 records).1.take i,
          rowKey r = rowKey ((parseRows 2 records).1.get ⟨i, h⟩)) →
        dupErr ((parseRows 2 records).1.get ⟨i, h⟩) ∈ (parse_threshold_csv records).2)) := by
  refine ⟨(dedupeRows_nodup (parseRows 2 records).1 []).1,
    dedupeRows_sublist (parseRows 2 records).1 [], ?_⟩
  intro i h
  constructor
  · intro hfirst
    exact dedupeRows_keeps_first (parseRows 2 records).1 [] i h (by simp) hfirst
  · intro hlater
    have := dedupeRows_reports_later (parseRows 2 records).1 [] i h (Or.inr hlater)
    exact List.mem_append_right _ this

/-- A CSV record with a valid limit and source clause whose
product_category is missing: the emptiness violation is recorded but the
row is still returned. -/
def lenientRec : RawRow :=
  { product_category := none,
    parameter_name := some (strOf "Aflatoxin B1"),
    unit := some (strOf "ppb"),
    parameter_code := none,
    limit_min := none,
    limit_max := some (strOf "2"),
    severity := some (strOf "critical"),
    source_clause := some (strOf "Clause 4.2"),
    remarks := none }

/-- The same record with the source clause missing instead: that check
skips the row. -/
def strictRec : RawRow :=
  { product_category := some (strOf "TRAD-NUTRI-500G"),
    parameter_name := some (strOf "Aflatoxin B1"),
    unit := some (strOf "ppb"),
    parameter_code := none,
    limit_min := none,
    limit_max := some (strOf "2"),
    severity := some (strOf "critical"),
    source_clause := none,
    remarks := none }

/-- C9: parse_threshold_csv can return rows whose required text fields are
empty after trimming: an empty product_category is recorded as an error
yet the row is kept in the returned list (with its empty field), while a
missing source_clause excludes the row; callers must therefore consult the
errors list and cannot rely on the returned rows being individually
valid. -/
theorem parse_threshold_csv_keeps_invalid_rows :
    ((parse_threshold_csv [lenientRec]).1.map
        (fun r => r.product_category) = [[]] ∧
      (parse_threshold_csv [lenientRec]).2 = [ParseError.productCategoryRequired 2]) ∧
    ((parse_threshold_csv [strictRec]).1 = [] ∧
      (parse_threshold_csv [strictRec]).2 = [ParseError.sourceClauseRequired 2]) := by
  decide

/-- Two records sharing the key (TRAD-NUTRI-500G, AFLA_B1). -/
def dupRecA : RawRow :=
  { product_category := some (strOf "TRAD-NUTRI-500G"),
    parameter_name := some (strOf "Aflatoxin B1"),
    unit := some (strOf "ppb"),
    parameter_code := none,
    limit_min := none,
    limit_max := some (strOf "2"),
    severity := some (strOf "critical"),
    source_clause := some (strOf "Clause 4.2"),
    remarks := none }

/-- A second record with the same key but a different limit. -/
def dupRecB : RawRow :=
  { product_category := some (strOf "TRAD-NUTRI-500G"),
    parameter_name := some (strOf "Aflatoxin B1"),
    unit := some (strOf "ppb"),
    parameter_code := none,
    limit_min := none,
    limit_max := some (strOf "3"),
    severity := some (strOf "high"),
    source_clause := some (strOf "Clause 9.9"),
    remarks := none }

/-- C8 witness: on a CSV with two rows sharing a key, the second
occurrence is reported as a duplicate-key error. -/
theorem parse_threshold_csv_dedupes_witness :
    dupErr ((parseRows 2 [dupRecA, dupRecB]).1.get ⟨1, by decide⟩) ∈
      (parse_threshold_csv [dupRecA, dupRecB]).2 :=
  ((parse_threshold_csv_dedupes [dupRecA, dupRecB]).2.2 1 (by decide)).2 (by decide)

/-! ## SHA-256 (model of hashlib.sha256, FIPS 180-4) over byte lists,
with 32-bit words as naturals reduced modulo 2^32. -/

def w32 : Nat := 4294967296

def rotr32 (x n : Nat) : Nat := ((x >>> n) ||| (x <<< (32 - n))) % w32

def bsig0 (x : Nat) : Nat := (rotr32 x 2) ^^^ (rotr32 x 13) ^^^ (rotr32 x 22)
def bsig1 (x : Nat) : Nat := (rotr32 x 6) ^^^ (rotr32 x 11) ^^^ (rotr32 x 25)
def ssig0 (x : Nat) : Nat := (rotr32 x 7) ^^^ (rotr32 x 18) ^^^ (x >>> 3)
def ssig1 (x : Nat) : Nat := (rotr32 x 17) ^^^ (rotr32 x 19) ^^^ (x >>> 10)

/-- The 64 round constants of SHA-256. -/
def shaK : List Nat :=
  [1116352408, 1899447441, 3049323471, 3921009573, 961987163,
   1508970993, 2453635748, 2870763221, 3624381080, 310598401,
   607225278, 1426881987, 1925078388, 2162078206, 2614888103,
   3248222580, 3835390401, 4022224774, 264347078, 604807628,
   770255983, 1249150122, 1555081692, 1996064986, 2554220882,
   2821834349, 2952996808, 3210313671, 3336571891, 3584528711,
   113926993, 338241895, 666307205, 773529912, 1294757372,
   1396182291, 1695183700, 1986661051, 2177026350, 2456956037,
   2730485921, 2820302411, 3259730800, 3345764771, 3516065817,
   3600352804, 4094571909, 275423344, 430227734, 506948616,
   659060556, 883997877, 958139571, 1322822218, 1537002063,
   1747873779, 1955562222, 2024104815, 2227730452, 2361852424,
   2428436474, 2756734187, 3204031479, 3329325298]

/-- The initial hash state of SHA-256. -/
def shaH0 : List Nat :=
  [1779033703, 3144134277, 1013904242, 2773480762,
   1359893119, 2600822924, 528734635, 1541459225]

/-- Pad a byte message to a multiple of 64 bytes: a 0x80 byte, zeros, and
the bit length as eight big-endian bytes. -/
def padMessage (msg : List Nat) : List Nat :=
  let bitLen := 8 * msg.length
  let k := (119 - (msg.length % 64)) % 64
  msg ++ [128] ++ List.replicate k 0 ++
    ((List.range 8).map (fun i => (bitLen >>> (8 * (7 - i))) % 256))

/-- Combine bytes into big-endian 32-bit words. -/
def toWords : List Nat → List Nat
  | a :: b :: c :: d :: rest => (a * 16777216 + b * 65536 + c * 256 + d) :: toWords rest
  | _ => []

/-- Extend the 16 block words to the 64-entry message schedule. -/
def extendSchedule (w : List Nat) : Nat → List Nat
  | 0 => w
  | n + 1 =>
    let ws := extendSchedule w n
    let t := ws.length
    ws ++ [(ssig1 (ws.getD (t - 2) 0) + ws.getD (t - 7) 0 +
            ssig0 (ws.getD (t - 15) 0) + ws.getD (t - 16) 0) % w32]

/-- One compression round on the eight-word state. -/
def roundStep (ws : List Nat) (st : List Nat) (t : Nat) : List Nat :=
  match st with
  | [a, b, c, d, e, f, g, h] =>
    let t1 := (h + bsig1 e + ((e &&& f) ^^^ ((w32 - 1 - e) &&& g)) +
               shaK.getD t 0 + ws.getD t 0) % w32
    let t2 := (bsig0 a + ((a &&& b) ^^^ (a &&& c) ^^^ (b &&& c))) % w32
    [(t1 + t2) % w32, a, b, c, (d + t1) % w32, e, f, g]
  | _ => st

/-- Compress one 64-byte block into the running hash state. -/
def compressBlock (h : List Nat) (block : List Nat) : List Nat :=
  let ws := extendSchedule (toWords block) 48
  let fin := (List.range 64).foldl (roundStep ws) h
  (h.zip fin).map (fun p => (p.1 + p.2) % w32)

/-- The eight 32-bit words of the SHA-256 digest of a byte message. -/
def sha256Words (msg : List Nat) : List Nat :=
  ((padMessage msg).toChunks 64).foldl compressBlock shaH0

def hexDigitCp (n : Nat) : Nat := if n < 10 then 48 + n else 87 + n

/-- Model of hashlib.sha256(data).hexdigest(): the digest as the code
points of its lower-case hexadecimal rendering. -/
def sha256Hex (msg : List Nat) : PyStr :=
  (sha256Words msg).flatMap (fun w =>
    (List.range 8).map (fun i => hexDigitCp ((w >>> (4 * (7 - i))) % 16)))

/-- UTF-8 encoding of one code point. -/
def utf8Char (n : Nat) : List Nat :=
  if n < 128 then [n]
  else if n < 2048 then [192 + n / 64, 128 + n % 64]
  else if n < 65536 then [224 + n / 4096, 128 + (n / 64) % 64, 128 + n % 64]
  else [240 + n / 262144, 128 + (n / 4096) % 64, 128 + (n / 64) % 64, 128 + n % 64]

/-- Model of str.encode with encoding utf-8. -/
def utf8Encode (s : PyStr) : List Nat := s.flatMap utf8Char

set_option maxRecDepth 40000 in
/-- SHA-256 of the string abc, checking the implementation against the
FIPS 180-4 test vector. -/
lemma sha256_abc :
    sha256Hex (utf8Encode (strOf "abc")) =
      strOf "ba7816bf8f01cfea414140de5dae2223b00361a396177a9cb410ff61f20015ad" := by
  decide

/-! ## Audit ledger (src/app/services/audit.py, append_audit_event).
A row of audit_logs, plus the ghost field py_ts: the ISO timestamp taken
by datetime.now at hash time, which the INSERT does not persist; the
persisted event_time is the now() of the database server and in general
differs from py_ts in value and format. The previous hash is read with
ORDER BY event_time DESC LIMIT 1, which on a log with strictly increasing
server times is the last inserted row; the model keeps insertion order. -/

structure AuditLogEntry where
  actor_id : PyStr
  action_type : PyStr
  entity_type : PyStr
  entity_id : PyStr
  event_time : PyStr
  payload : PyStr
  prev_hash : Option PyStr
  event_hash : PyStr
  py_ts : PyStr
deriving DecidableEq

/-- The inputs of one append_audit_event call, with the two clocks made
explicit: py_now is the Python-side hash-time timestamp, server_now the
server-assigned event_time. The payload is its canonical JSON text
(json.dumps with sorted keys and compact separators). -/
structure AppendRequest where
  actor_id : PyStr
  action_type : PyStr
  entity_type : PyStr
  entity_id : PyStr
  payload : PyStr
  py_now : PyStr
  server_now : PyStr
deriving DecidableEq

/-- The hashed text of append_audit_event (src/app/services/audit.py line
35): prev or the empty string, then the action, entity type, entity id,
canonical payload and timestamp, joined with the pipe character. -/
def hashBase (prev : Option PyStr) (action_type entity_type entity_id payload ts : PyStr) : PyStr :=
  prev.getD [] ++ 124 :: (action_type ++ 124 :: (entity_type ++ 124 :: (entity_id ++
    124 :: (payload ++ 124 :: ts))))

/-- Model of append_audit_event (src/app/services/audit.py lines 14-61):
read the most recent event hash, hash the base string, insert the row. -/
def append_audit_event (log : List AuditLogEntry) (req : AppendRequest) : List AuditLogEntry :=
  let prev := (log.getLast?).map (fun e => e.event_hash)
  let event_hash :=
    sha256Hex (utf8Encode (hashBase prev req.action_type req.entity_type
      req.entity_id req.payload req.py_now))
  log ++ [{ actor_id := req.actor_id,
            action_type := req.action_type,
            entity_type := req.entity_type,
            entity_id := req.entity_id,
            event_time := req.server_now,
            payload := req.payload,
            prev_hash := prev,
            event_hash := event_hash,
            py_ts := req.py_now }]

/-- A sequence of appends against an initially empty ledger. -/
def appendAll (log : List AuditLogEntry) (reqs : List AppendRequest) : List AuditLogEntry :=
  reqs.foldl append_audit_event log

/-- Recomputing the hash of an entry from its persisted fields, with the
persisted event_time as the timestamp component. -/
def recomputeFromRow (e : AuditLogEntry) : PyStr :=
  sha256Hex (utf8Encode (hashBase e.prev_hash e.action_type e.entity_type
    e.entity_id e.payload e.event_time))

/-- Recomputing the hash of an entry with the hash-time timestamp py_ts,
which the database row does not contain. -/
def recomputeAtHashTime (e : AuditLogEntry) : PyStr :=
  sha256Hex (utf8Encode (hashBase e.prev_hash e.action_type e.entity_type
    e.entity_id e.payload e.py_ts))

/-- The chain invariant: every entry hashes its own fields with its
hash-time timestamp, the first entry has no predecessor, and every later
entry links to the hash of the entry before it. -/
def auditInv (log : List AuditLogEntry) : Prop :=
  (∀ i (h : i < log.length), recomputeAtHashTime (log.get ⟨i, h⟩) = (log.get ⟨i, h⟩).event_hash) ∧
  (∀ h : 0 < log.length, (log.get ⟨0, h⟩).prev_hash = none) ∧
  (∀ i (h : i + 1 < log.length),
    (log.get ⟨i + 1, h⟩).prev_hash =
      some ((log.get ⟨i, Nat.lt_of_succ_lt h⟩).event_hash))

lemma auditInv_nil : auditInv [] := by
  refine ⟨?_, ?_, ?_⟩ <;> intro i <;> simp at i ⊢

lemma auditInv_append {log : List AuditLogEntry} (req : AppendRequest)
    (h : auditInv log) : auditInv (append_audit_event log req) := by
  obtain ⟨h1, h2, h3⟩ := h
  simp only [append_audit_event]
  set e : AuditLogEntry :=
    { actor_id := req.actor_id,
      action_type := req.action_type,
      entity_type := req.entity_type,
      entity_id := req.entity_id,
      event_time := req.server_now,
      payload := req.payload,
      prev_hash := (log.getLast?).map (fun x => x.event_hash),
      event_hash :=
        sha256Hex (utf8Encode (hashBase ((log.getLast?).map (fun x => x.event_hash))
          req.action_type req.entity_type req.entity_id req.payload req.py_now)),
      py_ts := req.py_now } with he
  refine ⟨?_, ?_, ?_⟩
  · intro i hi
    rw [List.get_eq_getElem]
    by_cases hlt : i < log.length
    · rw [List.getElem_append_left hlt]
      have := h1 i hlt
      rw [List.get_eq_getElem] at this
      exact this
    · have hieq : i = log.length := by
        have := hi
        simp only [List.length_append, List.length_cons, List.length_nil] at this
        omega
      rw [List.getElem_concat_length log e i hieq]
      rfl
  · intro hpos
    rw [List.get_eq_getElem]
    by_cases hlt : 0 < log.length
    · rw [List.getElem_append_left hlt]
      have := h2 hlt
      rw [List.get_eq_getElem] at this
      exact this
    · have hnil : log = [] := by
        cases log with
        | nil => rfl
        | cons a b => exact absurd (by simp) (fun hh => hlt hh)
      subst hnil
      rfl
  · intro i hi
    rw [List.get_eq_getElem, List.get_eq_getElem]
    by_cases hlt : i + 1 < log.length
    · rw [List.getElem_append_left hlt, List.getElem_append_left (Nat.lt_of_succ_lt hlt)]
      have := h3 i hlt
      rw [List.get_eq_getElem, List.get_eq_getElem] at this
      exact this
    · have hieq : i + 1 = log.length := by
        have := hi
        simp only [List.length_append, List.length_cons, List.length_nil] at this
        omega
      rw [List.getElem_concat_length log e (i + 1) hieq]
      rw [List.getElem_append_left (show i < log.length by omega)]
      have hlogne : log ≠ [] := by
        intro hnil
        rw [hnil] at hieq
        simp at hieq
      have hlast : log.getLast? = some (log.getLast hlogne) :=
        List.getLast?_eq_getLast log hlogne
      have hgl : log.getLast hlogne = log[i] := by
        rw [List.getLast_eq_getElem]
        have : log.length - 1 = i := by omega
        simp only [this]
      show ((log.getLast?).map (fun x => x.event_hash)) = some (log[i]).event_hash
      rw [hlast, hgl]
      rfl

lemma auditInv_appendAll (reqs : List AppendRequest) :
    ∀ (log : List AuditLogEntry), auditInv log → auditInv (appendAll log reqs) := by
  induction reqs with
  | nil => intro log h; exact h
  | cons r rs ih =>
    intro log h
    exact ih (append_audit_event log r) (auditInv_append r h)

/-- C1: (amended) for every sequence of appends on an initially empty
ledger, every entry hashes prev_hash, action_type, entity_type, entity_id,
canonical payload and the hash-time timestamp py_ts joined with the pipe
delimiter, the first entry has prev_hash none, and every later entry
links to the event_hash of the entry before it. The hash-time timestamp
is not a persisted column, so the recomputation needs py_ts and not the
stored event_time. -/
theorem audit_chain_recompute_and_linkage (reqs : List AppendRequest) (i : Nat)
    (h : i < (appendAll [] reqs).length) :
    recomputeAtHashTime ((appendAll [] reqs).get ⟨i, h⟩) =
      ((appendAll [] reqs).get ⟨i, h⟩).event_hash ∧
    (i = 0 → ((appendAll [] reqs).get ⟨i, h⟩).prev_hash = none) ∧
    (∀ j (hj : i = j + 1),
      ((appendAll [] reqs).get ⟨i, h⟩).prev_hash =
        some (((appendAll [] reqs).get ⟨j, by omega⟩).event_hash)) := by
  have hinv := auditInv_appendAll reqs [] auditInv_nil
  refine ⟨hinv.1 i h, ?_, ?_⟩
  · intro hz
    subst hz
    exact hinv.2.1 h
  · intro j hij
    subst hij
    exact hinv.2.2 j h

/-- The concrete append used to check the audit model: the Python clock
reads one time, the database server another. -/
def reqEx : AppendRequest :=
  { actor_id := strOf "qa_lead",
    action_type := strOf "REG_THRESHOLD_RELEASE_APPROVED",
    entity_type := strOf "regulatory_release",
    entity_id := strOf "rel-1",
    payload := strOf "\x7b\x7d",
    py_now := strOf "2024-01-01T00:00:00.000123+00:00",
    server_now := strOf "2024-01-01 00:00:00.000547+00" }

set_option maxRecDepth 1000000 in
/-- C1 counterexample: for the freshly appended one-event sequence above,
recomputing each event hash as SHA-256 over the recorded fields of the
row (prev_hash, action_type, entity_type, entity_id, canonical payload,
and the recorded event_time timestamp) does not reproduce the stored
event_hash: the timestamp that was hashed is the Python-side hash-time
timestamp, which is never persisted, and the server-assigned event_time
differs from it. -/
theorem audit_recompute_from_row_fails :
    (appendAll [] [reqEx]).map (fun e => recomputeFromRow e) ≠
      (appendAll [] [reqEx]).map (fun e => e.event_hash) := by
  decide

set_option maxRecDepth 1000000 in
/-- C1 witness: the amended recomputation and linkage facts at the
concrete one-event ledger. -/
theorem audit_chain_recompute_witness :
    recomputeAtHashTime ((appendAll [] [reqEx]).get ⟨0, by decide⟩) =
      ((appendAll [] [reqEx]).get ⟨0, by decide⟩).event_hash ∧
    ((appendAll [] [reqEx]).get ⟨0, by decide⟩).prev_hash = none :=
  ⟨(audit_chain_recompute_and_linkage [reqEx] 0 (by decide)).1,
   (audit_chain_recompute_and_linkage [reqEx] 0 (by decide)).2.1 rfl⟩

/-! ## Live threshold cutover (src/app/services/regulatory.py,
publish_threshold_release lines 783-899). Dates are modelled as integers
(day numbers), so the day before effective_from is effective_from - 1. -/

/-- A row of the live compliance_thresholds table. -/
structure ComplianceThreshold where
  parameter_code : PyStr
  standard_name : PyStr
  product_category : PyStr
  limit_min : Option ℚ
  limit_max : Option ℚ
  unit : PyStr
  severity : PyStr
  effective_from : Int
  effective_to : Option Int
  source_ref : PyStr
deriving DecidableEq

/-- A row of regulatory_threshold_values as read back at publish time. -/
structure ReleaseRow where
  product_category : PyStr
  parameter_code : PyStr
  parameter_name : PyStr
  limit_min : Option ℚ
  limit_max : Option ℚ
  unit : PyStr
  severity : PyStr
  source_clause : Option PyStr
deriving DecidableEq

/-- The fields of a release that the publish cutover reads. -/
structure ReleaseInfo where
  standard_name : PyStr
  release_code : PyStr
  effective_from : Int
  effective_to : Option Int
  rows : List ReleaseRow
deriving DecidableEq

/-- The source_ref of an inserted row: release_code, or
release_code:source_clause when a clause is present. -/
def sourceRefOf (rel : ReleaseInfo) (r : ReleaseRow) : PyStr :=
  match r.source_clause with
  | some clause => rel.release_code ++ 58 :: clause
  | none => rel.release_code

/-- The UPDATE of the cutover applied to one live row: close a
currently-open row of the same standard whose key the release also
defines and whose effective_from is not after the new effective_from, by
setting effective_to to the day before the new effective_from. -/
def closeRow (rel : ReleaseInfo) (c : ComplianceThreshold) : ComplianceThreshold :=
  if c.standard_name = rel.standard_name ∧ c.effective_to = none ∧
      c.effective_from ≤ rel.effective_from ∧
      (∃ r ∈ rel.rows, r.product_category = c.product_category ∧
        r.parameter_code = c.parameter_code) then
    { c with effective_to := some (rel.effective_from - 1) }
  else c

/-- The inserted live row for one release value row. -/
def insertedRow (rel : ReleaseInfo) (r : ReleaseRow) : ComplianceThreshold :=
  { parameter_code := r.parameter_code,
    standard_name := rel.standard_name,
    product_category := r.product_category,
    limit_min := r.limit_min,
    limit_max := r.limit_max,
    unit := r.unit,
    severity := r.severity,
    effective_from := rel.effective_from,
    effective_to := rel.effective_to,
    source_ref := sourceRefOf rel r }

/-- The cutover of publish_threshold_release on the live table: close
matching open rows, then insert one row per release value row. -/
def publishCutover (state : List ComplianceThreshold) (rel : ReleaseInfo) :
    List ComplianceThreshold :=
  state.map (closeRow rel) ++ rel.rows.map (insertedRow rel)

/-- The key of a live row. -/
def thresholdKey (c : ComplianceThreshold) : PyStr × PyStr × PyStr :=
  (c.standard_name, c.product_category, c.parameter_code)

/-- How many rows for a key are currently open. -/
def openCount (state : List ComplianceThreshold) (k : PyStr × PyStr × PyStr) : Nat :=
  state.countP (fun c => decide (c.effective_to = none ∧ thresholdKey c = k))

/-- The invariant of the claim: at most one open row per key. -/
def atMostOneOpen (state : List ComplianceThreshold) : Prop :=
  ∀ k, openCount state k ≤ 1

/-- The precondition under which one cutover preserves the invariant: the
release rows carry distinct keys, and no open row of this standard for a
key the release defines has an effective_from later than the release
(the close UPDATE only reaches rows with effective_from not after the new
effective_from). -/
def publishOk (state : List ComplianceThreshold) (rel : ReleaseInfo) : Prop :=
  (rel.rows.map (fun r => (r.product_category, r.parameter_code))).Nodup ∧
  ∀ c ∈ state, c.effective_to = none → c.standard_name = rel.standard_name →
    (∃ r ∈ rel.rows, r.product_category = c.product_category ∧
      r.parameter_code = c.parameter_code) →
    c.effective_from ≤ rel.effective_from

/-- A sequence of cutovers in which every step satisfies publishOk in the
state it runs against. -/
instance publishOk_decidable (st : List ComplianceThreshold) (rel : ReleaseInfo) :
    Decidable (publishOk st rel) := by
  unfold publishOk
  exact inferInstance

def monotoneSeq : List ComplianceThreshold → List ReleaseInfo → Bool
  | _, [] => true
  | st, rel :: rels =>
    decide (publishOk st rel) && monotoneSeq (publishCutover st rel) rels

lemma countP_eq_key_le_one :
    ∀ (l : List (PyStr × PyStr)), l.Nodup → ∀ k, l.countP (fun x => decide (x = k)) ≤ 1 := by
  intro l
  induction l with
  | nil => intro _ k; simp
  | cons a t ih =>
    intro h k
    obtain ⟨hat, ht⟩ := List.nodup_cons.mp h
    rw [List.countP_cons]
    simp only [decide_eq_true_eq]
    by_cases hak : a = k
    · subst hak
      have hz : t.countP (fun x => decide (x = a)) = 0 := by
        rw [List.countP_eq_zero]
        intro x hx
        simp only [decide_eq_true_eq]
        intro hxa
        rw [hxa] at hx
        exact hat hx
      rw [hz]
      simp
    · have hrec := ih ht k
      rw [if_neg hak]
      omega

lemma publishCutover_preserves {st : List ComplianceThreshold} {rel : ReleaseInfo}
    (hInv : atMostOneOpen st) (hOk : publishOk st rel) :
    atMostOneOpen (publishCutover st rel) := by
  intro k
  unfold openCount publishCutover
  rw [List.countP_append, List.countP_map, List.countP_map]
  simp only [Function.comp_def]
  by_cases hk : k.1 = rel.standard_name ∧
      ∃ r ∈ rel.rows, (r.product_category, r.parameter_code) = (k.2.1, k.2.2)
  · have hold : st.countP
        (fun c => decide ((closeRow rel c).effective_to = none ∧
          thresholdKey (closeRow rel c) = k)) = 0 := by
      rw [List.countP_eq_zero]
      intro c0 hc0
      simp only [decide_eq_true_eq, not_and]
      intro hopen hkey
      unfold closeRow at hopen hkey
      by_cases hcond : c0.standard_name = rel.standard_name ∧ c0.effective_to = none ∧
          c0.effective_from ≤ rel.effective_from ∧
          (∃ r ∈ rel.rows, r.product_category = c0.product_category ∧
            r.parameter_code = c0.parameter_code)
      · rw [if_pos hcond] at hopen
        simp at hopen
      · rw [if_neg hcond] at hopen hkey
        unfold thresholdKey at hkey
        rw [Prod.ext_iff] at hkey
        obtain ⟨hf1, hkey2⟩ := hkey
        rw [Prod.ext_iff] at hkey2
        obtain ⟨hf2, hf3⟩ := hkey2
        simp only at hf1 hf2 hf3
        have hstd : c0.standard_name = rel.standard_name := by rw [hf1, hk.1]
        obtain ⟨r, hr, hrk⟩ := hk.2
        rw [Prod.ext_iff] at hrk
        simp only at hrk
        have hdef : ∃ r ∈ rel.rows, r.product_category = c0.product_category ∧
            r.parameter_code = c0.parameter_code :=
          ⟨r, hr, by rw [hrk.1, hf2], by rw [hrk.2, hf3]⟩
        exact hcond ⟨hstd, hopen, hOk.2 c0 hc0 hopen hstd hdef, hdef⟩
    rw [hold]
    simp only [Nat.zero_add]
    calc rel.rows.countP
          (fun r => decide ((insertedRow rel r).effective_to = none ∧
            thresholdKey (insertedRow rel r) = k))
        ≤ rel.rows.countP
          (fun r => decide ((r.product_category, r.parameter_code) = (k.2.1, k.2.2))) := by
          apply List.countP_mono_left
          intro r _ hp
          simp only [decide_eq_true_eq] at hp ⊢
          obtain ⟨_, hkey⟩ := hp
          unfold thresholdKey insertedRow at hkey
          simp only at hkey
          rw [Prod.ext_iff] at hkey
          exact hkey.2.trans Prod.mk.eta.symm
      _ ≤ 1 := by
          have hle := countP_eq_key_le_one
            (rel.rows.map (fun r => (r.product_category, r.parameter_code)))
            hOk.1 (k.2.1, k.2.2)
          rw [List.countP_map] at hle
          simpa only [Function.comp] using hle
  · have hnew : rel.rows.countP
        (fun r => decide ((insertedRow rel r).effective_to = none ∧
          thresholdKey (insertedRow rel r) = k)) = 0 := by
      rw [List.countP_eq_zero]
      intro r hr
      simp only [decide_eq_true_eq, not_and]
      intro _ hkey
      apply hk
      unfold thresholdKey insertedRow at hkey
      simp only at hkey
      rw [Prod.ext_iff] at hkey
      exact ⟨hkey.1.symm, r, hr, hkey.2.trans Prod.mk.eta.symm⟩
    rw [hnew]
    have hmono : st.countP
        (fun c => decide ((closeRow rel c).effective_to = none ∧
          thresholdKey (closeRow rel c) = k)) ≤
        st.countP (fun c => decide (c.effective_to = none ∧ thresholdKey c = k)) := by
      apply List.countP_mono_left
      intro c _ hp
      simp only [decide_eq_true_eq] at hp ⊢
      unfold closeRow at hp
      by_cases hcond : c.standard_name = rel.standard_name ∧ c.effective_to = none ∧
          c.effective_from ≤ rel.effective_from ∧
          (∃ r ∈ rel.rows, r.product_category = c.product_category ∧
            r.parameter_code = c.parameter_code)
      · rw [if_pos hcond] at hp
        simp at hp
      · rw [if_neg hcond] at hp
        exact hp
    have hinvk := hInv k
    unfold openCount at hinvk
    omega

/-- The release value row used in the publish examples. -/
def rowK : ReleaseRow :=
  { product_category := strOf "TRAD-NUTRI-500G",
    parameter_code := strOf "AFLA_B1",
    parameter_name := strOf "Aflatoxin B1",
    limit_min := none,
    limit_max := some 2,
    unit := strOf "ug/kg",
    severity := strOf "critical",
    source_clause := some (strOf "Clause 4.2") }

/-- An open-ended release effective from day 10. -/
def relLate : ReleaseInfo :=
  { standard_name := strOf "FSSAI",
    release_code := strOf "FSSAI-2024-01",
    effective_from := 10,
    effective_to := none,
    rows := [rowK] }

/-- An open-ended release for the same key effective from day 5. -/
def relEarly : ReleaseInfo :=
  { standard_name := strOf "FSSAI",
    release_code := strOf "FSSAI-2023-12",
    effective_from := 5,
    effective_to := none,
    rows := [rowK] }

/-- C2 counterexample: publishing the day-10 release and then the day-5
release for the same (standard, product_category, parameter_code) key
leaves two open rows for that key: the close UPDATE only reaches open
rows with effective_from not after the new effective_from, so the day-10
row survives the second publish open. -/
theorem publish_two_open_rows :
    ¬ atMostOneOpen (List.foldl publishCutover [] [relLate, relEarly]) := fun h =>
  absurd (h (strOf "FSSAI", strOf "TRAD-NUTRI-500G", strOf "AFLA_B1")) (by decide)

/-- C2 (amended): after any sequence of publish cutovers from an empty
live table, at most one row per (standard, product_category,
parameter_code) key is open, provided each publish has distinct row keys
and its effective_from is not earlier than the effective_from of any open
row it redefines (for example, releases published in non-decreasing
effective_from order); without that proviso the counterexample above
exhibits two open rows. -/
theorem publish_cutover_exclusive (rels : List ReleaseInfo)
    (h : monotoneSeq [] rels = true) :
    atMostOneOpen (List.foldl publishCutover [] rels) := by
  have aux : ∀ (rs : List ReleaseInfo) (st : List ComplianceThreshold),
      atMostOneOpen st → monotoneSeq st rs = true →
      atMostOneOpen (List.foldl publishCutover st rs) := by
    intro rs
    induction rs with
    | nil =>
      intro st h1 _
      exact h1
    | cons rel rels2 ih =>
      intro st h1 h2
      simp only [monotoneSeq, Bool.and_eq_true, decide_eq_true_eq] at h2
      exact ih (publishCutover st rel) (publishCutover_preserves h1 h2.1) h2.2
  refine aux rels [] (fun k => ?_) h
  simp [openCount]

/-- C2 witness: publishing the day-5 release and then the day-10 release
satisfies the monotonicity proviso, and the resulting table has at most
one open row per key. -/
theorem publish_cutover_exclusive_witness :
    atMostOneOpen (List.foldl publishCutover [] [relEarly, relLate]) :=
  publish_cutover_exclusive [relEarly, relLate] (by decide)

/-! ## Release lifecycle (src/app/services/regulatory.py,
approve_threshold_release lines 727-766 and publish_threshold_release
lines 769-899). The coverage report is abstracted to its readiness bit
(ready_for_approval = ready_for_publish in the source); the audit ledger
is tracked as the list of appended action types. -/

inductive ReviewStatus where
  | draft
  | approved
  | published
  | rejected
deriving DecidableEq

/-- The release columns the lifecycle reads and writes. -/
structure ThresholdRelease where
  release_id : PyStr
  release_code : PyStr
  standard_name : PyStr
  review_status : ReviewStatus
  effective_from : Int
  effective_to : Option Int
  approved_by : Option PyStr
  published_by : Option PyStr
  notes : Option PyStr
deriving DecidableEq

/-- The store state a lifecycle call sees: the release, its value rows,
the readiness bit of its coverage report, the live threshold table, and
the audit trail. -/
structure GovState where
  release : ThresholdRelease
  release_rows : List ReleaseRow
  coverage_ready : Bool
  thresholds : List ComplianceThreshold
  audit : List PyStr
deriving DecidableEq

structure ApproveResult where
  release_id : PyStr
  review_status : ReviewStatus
  idempotent : Bool
deriving DecidableEq

structure PublishResult where
  release_id : PyStr
  review_status : ReviewStatus
  closed_previous_rows : Nat
  inserted_rows : Nat
deriving DecidableEq

/-- Model of approve_threshold_release: published releases cannot be
re-approved; approving an approved release returns idempotently with no
writes; otherwise the coverage gate must pass, and approval updates the
release and appends one audit event. -/
def approve_threshold_release (st : GovState) (approved_by : PyStr)
    (notes : Option PyStr) : Except String (GovState × ApproveResult) :=
  if st.release.review_status = ReviewStatus.published then
    Except.error "Release is already published and cannot be re-approved"
  else if st.release.review_status = ReviewStatus.approved then
    Except.ok (st, { release_id := st.release.release_id,
                     review_status := ReviewStatus.approved, idempotent := true })
  else if st.coverage_ready = false then
    Except.error "Release cannot be approved until coverage is complete"
  else
    Except.ok
      ({ st with
          release := { st.release with
            review_status := ReviewStatus.approved,
            approved_by := some approved_by,
            notes := match notes with | some n => some n | none => st.release.notes },
          audit := st.audit ++ [strOf "REG_THRESHOLD_RELEASE_APPROVED"] },
       { release_id := st.release.release_id,
         review_status := ReviewStatus.approved, idempotent := false })

/-- The ReleaseInfo the cutover reads from a release and its rows. -/
def releaseInfoOf (st : GovState) : ReleaseInfo :=
  { standard_name := st.release.standard_name,
    release_code := st.release.release_code,
    effective_from := st.release.effective_from,
    effective_to := st.release.effective_to,
    rows := st.release_rows }

/-- Model of publish_threshold_release: requires status approved exactly,
a passing coverage gate, and at least one value row; then runs the close
and insert cutover on the live table, marks the release published, and
appends one audit event. -/
def publish_threshold_release (st : GovState) (published_by : PyStr) :
    Except String (GovState × PublishResult) :=
  if st.release.review_status ≠ ReviewStatus.approved then
    Except.error "Release must be approved before publish"
  else if st.coverage_ready = false then
    Except.error "Release cannot be published until coverage is complete"
  else if st.release_rows = [] then
    Except.error "Release has no threshold rows to publish"
  else
    let rel := releaseInfoOf st
    let closed := st.thresholds.countP (fun c => decide (closeRow rel c ≠ c))
    Except.ok
      ({ st with
          thresholds := publishCutover st.thresholds rel,
          release := { st.release with
            review_status := ReviewStatus.published,
            published_by := some published_by },
          audit := st.audit ++ [strOf "REG_THRESHOLD_RELEASE_PUBLISHED"] },
       { release_id := st.release.release_id,
         review_status := ReviewStatus.published,
         closed_previous_rows := closed,
         inserted_rows := st.release_rows.length })

/-- C3: the lifecycle is monotonic with no skips or reversals: publishing
a draft release fails with the must-be-approved validation error,
approving a published release fails, and approving an already-approved
release succeeds idempotently, returning idempotent true with the state
(including the audit ledger) unchanged. -/
theorem release_lifecycle_monotonic (st : GovState) (approved_by published_by : PyStr)
    (notes : Option PyStr) :
    (st.release.review_status = ReviewStatus.draft →
      publish_threshold_release st published_by =
        Except.error "Release must be approved before publish") ∧
    (st.release.review_status = ReviewStatus.published →
      approve_threshold_release st approved_by notes =
        Except.error "Release is already published and cannot be re-approved") ∧
    (st.release.review_status = ReviewStatus.approved →
      approve_threshold_release st approved_by notes =
        Except.ok (st, { release_id := st.release.release_id,
                         review_status := ReviewStatus.approved, idempotent := true })) := by
  refine ⟨?_, ?_, ?_⟩
  · intro h
    simp [publish_threshold_release, h]
  · intro h
    simp [approve_threshold_release, h]
  · intro h
    simp [approve_threshold_release, h]

/-- The release shared by the lifecycle witnesses. -/
def baseRelease : ThresholdRelease :=
  { release_id := strOf "rel-1",
    release_code := strOf "FSSAI-2024-01",
    standard_name := strOf "FSSAI",
    review_status := ReviewStatus.draft,
    effective_from := 10,
    effective_to := none,
    approved_by := none,
    published_by := none,
    notes := none }

/-- A draft release with passing coverage. -/
def govDraft : GovState :=
  { release := baseRelease,
    release_rows := [rowK],
    coverage_ready := true,
    thresholds := [],
    audit := [strOf "REG_THRESHOLD_RELEASE_IMPORTED"] }

/-- The same state with the release approved. -/
def govApproved : GovState :=
  { govDraft with release := { baseRelease with review_status := ReviewStatus.approved } }

/-- The same state with the release published. -/
def govPublished : GovState :=
  { govDraft with release := { baseRelease with review_status := ReviewStatus.published } }

/-- C3 witness: the three lifecycle facts at concrete states. -/
theorem release_lifecycle_monotonic_witness :
    publish_threshold_release govDraft (strOf "qa_lead") =
      Except.error "Release must be approved before publish" ∧
    approve_threshold_release govPublished (strOf "qa_lead") none =
      Except.error "Release is already published and cannot be re-approved" ∧
    approve_threshold_release govApproved (strOf "qa_lead") none =
      Except.ok (govApproved,
        { release_id := govApproved.release.release_id,
          review_status := ReviewStatus.approved, idempotent := true }) :=
  ⟨(release_lifecycle_monotonic govDraft (strOf "qa_lead") (strOf "qa_lead") none).1 rfl,
   (release_lifecycle_monotonic govPublished (strOf "qa_lead") (strOf "qa_lead") none).2.1 rfl,
   (release_lifecycle_monotonic govApproved (strOf "qa_lead") (strOf "qa_lead") none).2.2 rfl⟩

/-! ## Release import (src/app/services/regulatory.py,
import_threshold_release lines 473-646 and
_validate_rows_against_requirements lines 425-470). ISO date strings are
modelled as already-parsed optional day numbers; the uuid and the
release_code uniqueness constraint are modelled by an explicit conflict
check at insert position. Requirement keys are assumed unique per
(product_category, parameter_code), as the governance profile table
holds one row per key. -/

/-- A row of regulatory_parameter_requirements. -/
structure ParameterRequirement where
  product_category : PyStr
  parameter_code : PyStr
  parameter_name : PyStr
  canonical_unit : PyStr
  is_mandatory : Bool
  require_fssai : Bool
  require_eu : Bool
  require_codex : Bool
  require_haccp_internal : Bool
  effective_from : Int
  effective_to : Option Int
deriving DecidableEq

/-- ALLOWED_STANDARDS of the source. -/
def ALLOWED_STANDARDS : List PyStr :=
  [strOf "FSSAI", strOf "EU", strOf "CODEX", strOf "HACCP_INTERNAL"]

/-- Model of _is_standard_required: look the upper-cased standard up in
STANDARD_REQUIREMENT_COLUMNS and read that flag. -/
def is_standard_required (req : ParameterRequirement) (standard_name : PyStr) : Bool :=
  if standard_name.map upperChar = strOf "FSSAI" then req.require_fssai
  else if standard_name.map upperChar = strOf "EU" then req.require_eu
  else if standard_name.map upperChar = strOf "CODEX" then req.require_codex
  else if standard_name.map upperChar = strOf "HACCP_INTERNAL" then req.require_haccp_internal
  else false

/-- Model of _active_requirement_rows: mandatory rows whose effective
window contains as_of. -/
def active_requirement_rows (reqs : List ParameterRequirement) (as_of : Int) :
    List ParameterRequirement :=
  reqs.filter (fun r =>
    r.is_mandatory && decide (r.effective_from ≤ as_of) &&
      r.effective_to.all (fun t => decide (as_of ≤ t)))

structure CoverageMiss where
  product_category : PyStr
  parameter_code : PyStr
  canonical_unit : PyStr
deriving DecidableEq

structure UnitMismatch where
  product_category : PyStr
  parameter_code : PyStr
  expected_unit : PyStr
  provided_unit : PyStr
deriving DecidableEq

/-- The validation errors of import_threshold_release, one constructor
per raise of the source. -/
inductive ImportError where
  | invalidStandardName
  | missingReleaseCode
  | missingDocumentTitle
  | missingEffectiveFrom
  | invalidEffectiveRange
  | missingSourceAuthority
  | missingPublicationDate
  | csvValidationFailed (errors : List ParseError)
  | noValidRows
  | requirementsTableMissing
  | noActiveRequirements (standard_name : PyStr) (effective_from : Int)
  | coverageValidationFailed (missing : List CoverageMiss) (unit_mismatches : List UnitMismatch)
  | releaseCodeConflict (release_code : PyStr)
deriving DecidableEq

/-- Model of _validate_rows_against_requirements: reject when the profile
table is missing or no active mandatory requirement of this standard
exists, else report the required keys missing from the rows and the
required keys present with a mismatched canonical unit. -/
def validate_rows_against_requirements (tableExists : Bool)
    (reqs : List ParameterRequirement) (standard_name : PyStr) (effective_from : Int)
    (rows : List ThresholdRow) :
    Except ImportError (List CoverageMiss × List UnitMismatch) :=
  if tableExists = false then Except.error ImportError.requirementsTableMissing
  else
    if (active_requirement_rows reqs effective_from).filter
        (fun r => is_standard_required r standard_name) = [] then
      Except.error (ImportError.noActiveRequirements standard_name effective_from)
    else
      let required := (active_requirement_rows reqs effective_from).filter
        (fun r => is_standard_required r standard_name)
      let missing := (required.filter (fun req =>
        (rows.find? (fun r => decide (r.product_category = req.product_category ∧
          r.parameter_code = req.parameter_code))).isNone)).map
        (fun req => { product_category := req.product_category,
                      parameter_code := req.parameter_code,
                      canonical_unit := req.canonical_unit })
      let mismatches := required.filterMap (fun req =>
        match rows.find? (fun r => decide (r.product_category = req.product_category ∧
            r.parameter_code = req.parameter_code)) with
        | none => none
        | some row =>
          if normalize_unit row.unit ≠ normalize_unit req.canonical_unit then
            some { product_category := req.product_category,
                   parameter_code := req.parameter_code,
                   expected_unit := req.canonical_unit,
                   provided_unit := row.unit }
          else none)
      Except.ok (missing, mismatches)

/-- A persisted release row as the import creates it. -/
structure ImportedRelease where
  standard_name : PyStr
  release_code : PyStr
  document_title : PyStr
  effective_from : Int
  effective_to : Option Int
  review_status : ReviewStatus
  row_count : Nat
deriving DecidableEq

/-- The store state the import reads and writes. -/
structure ImportDb where
  requirements_table_exists : Bool
  requirements : List ParameterRequirement
  releases : List ImportedRelease
  threshold_values : List (PyStr × ThresholdRow)
  audit : List PyStr
deriving DecidableEq

/-- The arguments of import_threshold_release, dates pre-parsed. -/
structure ImportArgs where
  standard_name : PyStr
  release_code : PyStr
  document_title : PyStr
  effective_from : Option Int
  imported_by : PyStr
  csv_records : List RawRow
  jurisdiction : Option PyStr
  source_authority : Option PyStr
  document_url : Option PyStr
  publication_date : Option Int
  effective_to : Option Int
  notes : Option PyStr
deriving DecidableEq

/-- Model of import_threshold_release: field validations in source order,
CSV parse (any error aborts), coverage validation against the mandatory
requirement profile, then the atomic insert of the draft release, its
value rows and one audit event; a duplicate release_code is a conflict.
Every error path returns before any write, so a failed import persists
nothing. -/
def import_threshold_release (db : ImportDb) (args : ImportArgs) :
    Except ImportError ImportDb :=
  if (pyStrip args.standard_name).map upperChar ∉ ALLOWED_STANDARDS then
    Except.error ImportError.invalidStandardName
  else if pyStrip args.release_code = [] then Except.error ImportError.missingReleaseCode
  else if pyStrip args.document_title = [] then Except.error ImportError.missingDocumentTitle
  else
    match args.effective_from with
    | none => Except.error ImportError.missingEffectiveFrom
    | some eff_from =>
      if (match args.effective_to with
          | some t => decide (t < eff_from)
          | none => false) then Except.error ImportError.invalidEffectiveRange
      else if cleanOpt args.source_authority = [] then
        Except.error ImportError.missingSourceAuthority
      else
        match args.publication_date with
        | none => Except.error ImportError.missingPublicationDate
        | some _ =>
          if (parse_threshold_csv args.csv_records).2 ≠ [] then
            Except.error (ImportError.csvValidationFailed (parse_threshold_csv args.csv_records).2)
          else if (parse_threshold_csv args.csv_records).1 = [] then
            Except.error ImportError.noValidRows
          else
            match validate_rows_against_requirements db.requirements_table_exists
                db.requirements ((pyStrip args.standard_name).map upperChar) eff_from
                (parse_threshold_csv args.csv_records).1 with
            | Except.error e => Except.error e
            | Except.ok (missing, mismatches) =>
              if missing ≠ [] ∨ mismatches ≠ [] then
                Except.error (ImportError.coverageValidationFailed missing mismatches)
              else if (∃ r ∈ db.releases, r.release_code = pyStrip args.release_code) then
                Except.error (ImportError.releaseCodeConflict (pyStrip args.release_code))
              else
                Except.ok { db with
                  releases := db.releases ++
                    [{ standard_name := (pyStrip args.standard_name).map upperChar,
                       release_code := pyStrip args.release_code,
                       document_title := pyStrip args.document_title,
                       effective_from := eff_from,
                       effective_to := args.effective_to,
                       review_status := ReviewStatus.draft,
                       row_count := (parse_threshold_csv args.csv_records).1.length }],
                  threshold_values := db.threshold_values ++
                    (parse_threshold_csv args.csv_records).1.map
                      (fun r => (pyStrip args.release_code, r)),
                  audit := db.audit ++ [strOf "REG_THRESHOLD_RELEASE_IMPORTED"] }

lemma validate_ok_required_ne {tableExists : Bool} {reqs : List ParameterRequirement}
    {std : PyStr} {eff : Int} {rows : List ThresholdRow}
    {m : List CoverageMiss} {u : List UnitMismatch}
    (h : validate_rows_against_requirements tableExists reqs std eff rows = Except.ok (m, u)) :
    (active_requirement_rows reqs eff).filter (fun r => is_standard_required r std) ≠ [] := by
  unfold validate_rows_against_requirements at h
  split at h
  · simp at h
  · split at h
    · simp at h
    · next hne => exact hne

/-- C4: a successful import entails that the set of active mandatory
requirement rows for the release standard at its effective_from is
non-empty and that the parsed rows leave no required key missing and no
unit mismatched; contrapositively, whenever the requirement set is empty
(an ungoverned standard) or the parsed rows leave a required key missing
or unit-mismatched, import_threshold_release returns a validation error,
and since every error path returns before any write, no release row and
no threshold value row is persisted. -/
theorem import_requires_governed_standard (db : ImportDb) (args : ImportArgs)
    (h : (import_threshold_release db args).isOk = true) :
    ∃ eff_from, args.effective_from = some eff_from ∧
      (active_requirement_rows db.requirements eff_from).filter
        (fun r => is_standard_required r ((pyStrip args.standard_name).map upperChar)) ≠ [] ∧
      validate_rows_against_requirements db.requirements_table_exists db.requirements
        ((pyStrip args.standard_name).map upperChar) eff_from
        (parse_threshold_csv args.csv_records).1 = Except.ok ([], []) := by
  obtain ⟨out, hok⟩ : ∃ out, import_threshold_release db args = Except.ok out := by
    cases himp : import_threshold_release db args with
    | error e => rw [himp] at h; simp [Except.isOk, Except.toBool] at h
    | ok o => exact ⟨o, rfl⟩
  unfold import_threshold_release at hok
  split at hok
  · simp at hok
  split at hok
  · simp at hok
  split at hok
  · simp at hok
  split at hok
  · simp at hok
  next eff_from heff =>
    split at hok
    · simp at hok
    split at hok
    · simp at hok
    split at hok
    · simp at hok
    next pub hpub =>
      split at hok
      · simp at hok
      split at hok
      · simp at hok
      split at hok
      · simp at hok
      next missing mismatches hval =>
        split at hok
        · simp at hok
        next hcov =>
          split at hok
          · simp at hok
          next hconf =>
            push_neg at hcov
            obtain ⟨hm, hu⟩ := hcov
            subst hm
            subst hu
            exact ⟨eff_from, heff, validate_ok_required_ne hval, hval⟩

/-- The governance profile row used by the import witness. -/
def reqAflaB1 : ParameterRequirement :=
  { product_category := strOf "TRAD-NUTRI-500G",
    parameter_code := strOf "AFLA_B1",
    parameter_name := strOf "Aflatoxin B1",
    canonical_unit := strOf "ug/kg",
    is_mandatory := true,
    require_fssai := true,
    require_eu := false,
    require_codex := false,
    require_haccp_internal := false,
    effective_from := 0,
    effective_to := none }

/-- A store holding that one requirement and nothing else. -/
def importDbEx : ImportDb :=
  { requirements_table_exists := true,
    requirements := [reqAflaB1],
    releases := [],
    threshold_values := [],
    audit := [] }

/-- Arguments of a valid import of one FSSAI release. -/
def importArgsEx : ImportArgs :=
  { standard_name := strOf "FSSAI",
    release_code := strOf "FSSAI-2024-01",
    document_title := strOf "FSSAI Aflatoxin Limits",
    effective_from := some 10,
    imported_by := strOf "qa_lead",
    csv_records := [dupRecA],
    jurisdiction := none,
    source_authority := some (strOf "FSSAI"),
    document_url := none,
    publication_date := some 5,
    effective_to := none,
    notes := none }

/-- C4 witness: the concrete import above succeeds, so its standard has a
non-empty active mandatory requirement set at the effective date and its
rows validate with no missing keys and no unit mismatches. -/
theorem import_requires_governed_standard_witness :
    (active_requirement_rows importDbEx.requirements 10).filter
      (fun r => is_standard_required r
        ((pyStrip importArgsEx.standard_name).map upperChar)) ≠ [] ∧
    validate_rows_against_requirements importDbEx.requirements_table_exists
      importDbEx.requirements ((pyStrip importArgsEx.standard_name).map upperChar) 10
      (parse_threshold_csv importArgsEx.csv_records).1 = Except.ok ([], []) := by
  obtain ⟨e, he, h1, h2⟩ :=
    import_requires_governed_standard importDbEx importArgsEx (by decide)
  have he2 : (10 : Int) = e := Option.some.inj he
  subst he2
  exact ⟨h1, h2⟩
